import Mathlib

/-!
Verification development for the boltby streaming message parser,
action auto-fixer and action runner.

Strings are modelled as `List Char` (`Str`). JavaScript string
primitives used by the source (`indexOf`, `slice`, `trim`, regex tests
with deterministic backtracking, `split(/\s+/)`, `lastIndexOf`,
`replace`) are given explicit executable models below.
-/

set_option maxRecDepth 10000
set_option linter.unusedVariables false

abbrev Str := List Char

/-- JS `String.prototype.slice(i, j)` (clamping, empty when `i ≥ j`). -/
def sliceCh (s : Str) (i j : Nat) : Str := (s.take j).drop i

/-- Whitespace class used by JS `trim` / `\s` (ASCII part). -/
def isWsJS (c : Char) : Bool :=
  c = ' ' || c = '\t' || c = '\n' || c = '\r' || c = '\x0b' || c = '\x0c'

/-- JS `String.prototype.trim`. -/
def trimJS (s : Str) : Str :=
  ((s.dropWhile isWsJS).reverse.dropWhile isWsJS).reverse

/-- JS `\w` character class `[A-Za-z0-9_]`. -/
def isWordCharJS (c : Char) : Bool :=
  ( 'a' ≤ c && c ≤ 'z') || ( 'A' ≤ c && c ≤ 'Z') || ( '0' ≤ c && c ≤ '9') || c = '_'

/-- `pat` occurs in `s` at index `k` (entirely inside `s`). -/
def occursAtB (pat s : Str) (k : Nat) : Bool :=
  (s.drop k).take pat.length == pat

/-- Linear scan for the first occurrence of `pat` at an index `≥ k`,
with explicit fuel (structural, so that concrete witnesses evaluate by
kernel reduction). -/
def strIndexOfAux (s pat : Str) : Nat → Nat → Option Nat
  | 0, _ => none
  | fuel + 1, k => if occursAtB pat s k then some k else strIndexOfAux s pat fuel (k + 1)

/-- JS `s.indexOf(pat, start)` (`none` for `-1`). -/
def strIndexOf (s pat : Str) (start : Nat) : Option Nat :=
  strIndexOfAux s pat (s.length + 1 - start) start

/-- JS `s.lastIndexOf(c)` for a single character. -/
def lastIndexOfC (s : Str) (c : Char) : Option Nat :=
  (List.range s.length).foldl (fun acc k => if s[k]? = some c then some k else acc) none

/-- Number of leading characters of `pat` matched by `s` starting at `i`. -/
def matchCount (s : Str) (i : Nat) : Str → Nat
  | [] => 0
  | c :: rest => if s[i]? = some c then matchCount s (i + 1) rest + 1 else 0

/-- JS `String.prototype.replace` with a global plain-string pattern
(left-to-right, non-overlapping). On an empty pattern returns `s`. -/
def replaceAllAux (pat rep : Str) : Nat → Str → Str
  | 0, s => s
  | _, [] => []
  | fuel + 1, c :: rest =>
    if pat ≠ [] ∧ occursAtB pat (c :: rest) 0 then
      rep ++ replaceAllAux pat rep fuel ((c :: rest).drop pat.length)
    else
      c :: replaceAllAux pat rep fuel rest

def replaceAllStr (s pat rep : Str) : Str := replaceAllAux pat rep s.length s

/-! ## Tag grammar model (`app/lib/runtime/message-parser.ts`) -/

def artifactTagOpen : Str := "<boltArtifact".data
def artifactTagClose : Str := "</boltArtifact>".data
def actionTagOpen : Str := "<boltAction".data
def actionTagClose : Str := "</boltAction>".data

/-- `BoltArtifactData`: the three attributes pulled off an artifact open
tag (each may be `undefined` = `none`). -/
structure ArtifactData where
  attrId : Option Str
  title : Option Str
  atype : Option Str
deriving Repr, DecidableEq

/-- The action accumulator built by `#parseActionTag` (and the initial
`{ content: '' }`): a `type` attribute, accumulated `content`, and the
optional `operation` / `filePath` attributes. -/
structure ActionData where
  atype : Option Str
  content : Str
  operation : Option Str
  filePath : Option Str
deriving Repr, DecidableEq

def initAction : ActionData := ⟨none, [], none, none⟩

/-- Per-message parser state (`MessageState`), minus `lastInput` which
lives one level up (it is written by `parse` outside the scan loop). -/
structure MState where
  position : Nat
  insideArtifact : Bool
  insideAction : Bool
  currentArtifact : Option ArtifactData
  currentAction : ActionData
  actionId : Nat
deriving Repr, DecidableEq

def initMState : MState := ⟨0, false, false, none, initAction, 0⟩

/-- Full per-message state: scan state plus the last buffer seen. -/
structure MsgState where
  core : MState
  lastInput : Option Str
deriving Repr, DecidableEq

def initMsgState : MsgState := ⟨initMState, none⟩

/-- Parser callback events (per message; the message id is fixed by the
state map key and omitted). `actionId` is the number interpolated into
the callback's `actionId` string. -/
inductive Ev where
  | artifactOpen (art : ArtifactData)
  | artifactClose (art : ArtifactData)
  | actionOpen (artifactId : Option Str) (actionId : Int) (action : ActionData)
  | actionStream (artifactId : Option Str) (actionId : Int) (action : ActionData)
  | actionClose (artifactId : Option Str) (actionId : Int) (action : ActionData)
deriving Repr, DecidableEq

/-- The four boundary events of the claim statements (everything except
the `onActionStream` preview callback). -/
def keepEv : Ev → Bool
  | .actionStream _ _ _ => false
  | _ => true

/-- `cleanoutMarkdownSyntax`: model of the anchored lazy regex
`^\s*(3 backticks)\w*\n([\s\S]*?)\n\s*(3 backticks)\s*$` applied with
`match`; returns the first capture group when the whole content is a
fenced block, the content unchanged otherwise. Backtracking is
deterministic here because the greedy classes are disjoint from the
literals that follow them; the lazy middle takes the least `k` whose
remainder matches the tail. -/
def fence3 : Str := "\x60\x60\x60".data

def fenceTailMatch (t : Str) : Bool :=
  let r := t.dropWhile isWsJS
  r.take 3 == fence3 && (r.drop 3).all isWsJS

def fenceMidSplit (rest : Str) : Option Nat :=
  (List.range rest.length).find? (fun k =>
    rest[k]? == some '\n' && fenceTailMatch (rest.drop (k + 1)))

def cleanoutMarkdownSyntax (content : Str) : Str :=
  let r1 := content.dropWhile isWsJS
  if r1.take 3 = fence3 then
    let r2 := (r1.drop 3).dropWhile isWordCharJS
    match r2 with
    | '\n' :: rest =>
      match fenceMidSplit rest with
      | some k => rest.take k
      | none => content
    | _ => content
  else content

/-- `cleanEscapedTags`: `&lt;` → `<` then `&gt;` → `>`. -/
def cleanEscapedTags (content : Str) : Str :=
  replaceAllStr (replaceAllStr content "&lt;".data "<".data) "&gt;".data ">".data

/-- `#extractAttribute`: first (leftmost) match of the case-insensitive
regex `name="([^"]*)"` inside the tag text. -/
def attrMatchB (tag attr : Str) (k : Nat) : Bool :=
  ((sliceCh tag k (k + attr.length)).map Char.toLower == attr.map Char.toLower) &&
  ((sliceCh tag k (k + attr.length)).length == attr.length) &&
  (tag[k + attr.length]? == some '=') &&
  (tag[k + attr.length + 1]? == some '"') &&
  ((tag.drop (k + attr.length + 2)).contains '"')

def extractAttribute (tag attr : Str) : Option Str :=
  match (List.range (tag.length + 1)).find? (fun k => attrMatchB tag attr k) with
  | some k => some ((tag.drop (k + attr.length + 2)).takeWhile (fun c => c ≠ '"'))
  | none => none

def typeStr : Str := "type".data
def operationStr : Str := "operation".data
def filePathStr : Str := "filePath".data
def pocketbaseStr : Str := "pocketbase".data
def fileStr : Str := "file".data
def collectionStr : Str := "collection".data
def queryStr : Str := "query".data
def mdSuffix : Str := ".md".data

/-- JS `String.prototype.endsWith`. -/
def endsWithStr (s suf : Str) : Bool :=
  suf.length ≤ s.length && (s.drop (s.length - suf.length) == suf)

def pbOpErrMsg (op : Option Str) : Str :=
  "Invalid PocketBase operation: ".data ++ op.getD "undefined".data

/-- `#parseActionTag` (throws = `.error` on an invalid or missing
PocketBase `operation`). -/
def parseActionTag (input : Str) (openIdx endIdx : Nat) : Except Str ActionData :=
  let tag := sliceCh input openIdx (endIdx + 1)
  let ty := extractAttribute tag typeStr
  if ty = some pocketbaseStr then
    let op := extractAttribute tag operationStr
    if op = some collectionStr ∨ op = some queryStr then
      let fp :=
        if op = some collectionStr then
          match extractAttribute tag filePathStr with
          | some f => if f ≠ [] then some f else none
          | none => none
        else none
      .ok ⟨ty, [], op, fp⟩
    else .error (pbOpErrMsg op)
  else if ty = some fileStr then
    .ok ⟨ty, [], none, extractAttribute tag filePathStr⟩
  else
    .ok ⟨ty, [], none, none⟩

/-- The message used by the TypeError raised when the source calls
`.endsWith` on an `undefined` `filePath` of a file action. -/
def tyErrMsg : Str := "TypeError: filePath undefined".data

/-- Outcome of one iteration of the `while` loop inside `parse`. -/
inductive StepRes where
  | next (st : MState) (out : Str) (evs : List Ev)
  | brk (evs : List Ev)
  | done
  | thrown (st : MState) (msg : Str)
deriving Repr, DecidableEq

/-- Cleaning applied to a file action's content at close time. -/
def fileCloseContent (fp : Str) (content : Str) : Str :=
  (if endsWithStr fp mdSuffix then content
   else cleanEscapedTags (cleanoutMarkdownSyntax content)) ++ ['\n']

/-- One iteration of the scan loop of `StreamingMessageParser.parse`
(the body of `while (i < input.length)`), at cursor `st.position`.
`artEl` is the placeholder fragment produced by the artifact element
factory for this message. -/
def step (artEl input : Str) (st : MState) : StepRes :=
  let i := st.position
  if i < input.length then
    if st.insideArtifact then
      match st.currentArtifact with
      | none => .thrown st "Artifact not initialized".data
      | some currentArtifact =>
        if st.insideAction then
          let ca := st.currentAction
          match strIndexOf input actionTagClose i with
          | some closeIndex =>
            let acc := ca.content ++ sliceCh input i closeIndex
            let content0 := trimJS acc
            if ca.atype = some fileStr then
              match ca.filePath with
              | none => .thrown { st with currentAction := { ca with content := acc } } tyErrMsg
              | some fp =>
                let ca2 := { ca with content := fileCloseContent fp content0 }
                .next { st with position := closeIndex + actionTagClose.length,
                                insideAction := false, currentAction := initAction }
                  [] [Ev.actionClose currentArtifact.attrId ((st.actionId : Int) - 1) ca2]
            else
              let ca2 := { ca with content := content0 }
              .next { st with position := closeIndex + actionTagClose.length,
                              insideAction := false, currentAction := initAction }
                [] [Ev.actionClose currentArtifact.attrId ((st.actionId : Int) - 1) ca2]
          | none =>
            if ca.atype = some fileStr then
              match ca.filePath with
              | none => .thrown st tyErrMsg
              | some fp =>
                let c0 := input.drop i
                let c1 := if endsWithStr fp mdSuffix then c0
                          else cleanEscapedTags (cleanoutMarkdownSyntax c0)
                .brk [Ev.actionStream currentArtifact.attrId ((st.actionId : Int) - 1)
                        { ca with content := c1 }]
            else .brk []
        else
          let actionOpenIndex := strIndexOf input actionTagOpen i
          let artifactCloseIndex := strIndexOf input artifactTagClose i
          match actionOpenIndex with
          | some aIdx =>
            if artifactCloseIndex = none ∨ (∃ c, artifactCloseIndex = some c ∧ aIdx < c) then
              match strIndexOf input ">".data aIdx with
              | some actionEndIndex =>
                match parseActionTag input aIdx actionEndIndex with
                | .error msg => .thrown { st with insideAction := true } msg
                | .ok act =>
                  .next { st with position := actionEndIndex + 1,
                                  insideAction := true, currentAction := act,
                                  actionId := st.actionId + 1 }
                    [] [Ev.actionOpen currentArtifact.attrId (st.actionId : Int) act]
              | none => .brk []
            else
              match artifactCloseIndex with
              | some cIdx =>
                .next { st with position := cIdx + artifactTagClose.length,
                                insideArtifact := false, currentArtifact := none }
                  [] [Ev.artifactClose currentArtifact]
              | none => .brk []
          | none =>
            match artifactCloseIndex with
            | some cIdx =>
              .next { st with position := cIdx + artifactTagClose.length,
                              insideArtifact := false, currentArtifact := none }
                [] [Ev.artifactClose currentArtifact]
            | none => .brk []
    else
      if input[i]? = some '<' ∧ input[i + 1]? ≠ some '/' then
        let m := matchCount input i artifactTagOpen
        if hm : m = artifactTagOpen.length then
          -- potentialTag reached the full `<boltArtifact`; j = i + 12
          let j := i + artifactTagOpen.length - 1
          match input[j + 1]? with
          | some nextChar =>
            if nextChar ≠ '>' ∧ nextChar ≠ ' ' then
              .next { st with position := j + 1 } (sliceCh input i (j + 1)) []
            else
              match strIndexOf input ">".data j with
              | some openTagEnd =>
                let artifactTag := sliceCh input i (openTagEnd + 1)
                let art : ArtifactData :=
                  ⟨extractAttribute artifactTag "id".data,
                   extractAttribute artifactTag "title".data,
                   extractAttribute artifactTag typeStr⟩
                .next { st with position := openTagEnd + 1,
                                insideArtifact := true, currentArtifact := some art }
                  artEl [Ev.artifactOpen art]
              | none => .brk []  -- earlyBreak: open tag not fully buffered
          | none =>
            -- nextChar undefined: j + 1 = input.length; `indexOf('>', j)`
            -- can only inspect index j, which holds 't', so it fails
            match strIndexOf input ">".data j with
            | some openTagEnd =>
              let artifactTag := sliceCh input i (openTagEnd + 1)
              let art : ArtifactData :=
                ⟨extractAttribute artifactTag "id".data,
                 extractAttribute artifactTag "title".data,
                 extractAttribute artifactTag typeStr⟩
              .next { st with position := openTagEnd + 1,
                              insideArtifact := true, currentArtifact := some art }
                artEl [Ev.artifactOpen art]
            | none => .brk []
        else
          if i + m < input.length then
            -- the potential tag stopped being a prefix at index i + m
            .next { st with position := i + m + 1 } (sliceCh input i (i + m + 1)) []
          else
            .brk []  -- buffer ended inside a potential `<boltArtifact` prefix
      else
        .next { st with position := i + 1 } [input.getD i ' '] []
  else .done

structure LoopRes where
  st : MState
  out : Str
  evs : List Ev
  err : Option Str
deriving Repr, DecidableEq

/-- The scan loop of `parse`, driven by fuel (any fuel
`≥ input.length + 1 - st.position` computes the loop's fixpoint, since
every `.next` strictly advances the cursor). -/
def runLoop (artEl input : Str) : Nat → MState → LoopRes
  | 0, st => ⟨st, [], [], none⟩
  | fuel + 1, st =>
    match step artEl input st with
    | .done => ⟨st, [], [], none⟩
    | .brk evs => ⟨st, [], evs, none⟩
    | .thrown st' msg => ⟨st', [], [], some msg⟩
    | .next st' out evs =>
      let r := runLoop artEl input fuel st'
      ⟨r.st, out ++ r.out, evs ++ r.evs, r.err⟩

structure ParseRes where
  state : MsgState
  out : Str
  evs : List Ev
  err : Option Str
deriving Repr, DecidableEq

/-- `StreamingMessageParser.parse(messageId, input)` for one message:
stores `lastInput`, scans from the saved cursor, and commits the new
cursor. When `#parseActionTag` (or an `endsWith` on an `undefined`
`filePath`) throws, the cursor is not committed (`state.position = i`
is never reached) but in-place mutations made before the throw remain,
and the output fragment is lost. Events fired before the throw were
already delivered. -/
def parseCall (artEl input : Str) (ms : MsgState) : ParseRes :=
  let r := runLoop artEl input (input.length + 1) ms.core
  match r.err with
  | some m => ⟨⟨{ r.st with position := ms.core.position }, some input⟩, [], r.evs, some m⟩
  | none => ⟨⟨r.st, some input⟩, r.out, r.evs, none⟩

/-- `StreamingMessageParser.finalize(messageId)`, first half: if an
action is still open (and an artifact exists), force-close it using
the bytes of the last seen buffer after the committed cursor. -/
def finalizeAction (st : MState) (lastInput : Option Str) : MState × List Ev :=
  if st.insideAction then
    match st.currentArtifact with
    | some art =>
      let ca := st.currentAction
      let raw :=
        match lastInput with
        | some li => li.drop st.position
        | none => ca.content
      let content0 := trimJS raw
      let content :=
        if ca.atype = some fileStr then
          (if (match ca.filePath with
               | some fp => endsWithStr fp mdSuffix
               | none => false) then content0
           else cleanEscapedTags (cleanoutMarkdownSyntax content0)) ++ ['\n']
        else content0
      ({ st with insideAction := false, currentAction := initAction },
       [Ev.actionClose art.attrId ((st.actionId : Int) - 1) { ca with content := content }])
    | none => (st, [])
  else (st, [])

/-- `finalize`, second half: force-close an unclosed artifact. -/
def finalizeArtifact (st : MState) : MState × List Ev :=
  if st.insideArtifact then
    match st.currentArtifact with
    | some art =>
      ({ st with insideArtifact := false, currentArtifact := none }, [Ev.artifactClose art])
    | none => (st, [])
  else (st, [])

/-- `StreamingMessageParser.finalize(messageId)`. -/
def finalizeCall (ms : MsgState) : MsgState × List Ev :=
  let p1 := finalizeAction ms.core ms.lastInput
  let p2 := finalizeArtifact p1.1
  (⟨p2.1, ms.lastInput⟩, p1.2 ++ p2.2)

/-- The default `createArtifactElement` placeholder for a message id
(`camelToDashCase` of the single prop key `messageId` is
`message-id`; `JSON.stringify` of the id supplies the quotes). -/
def jsonEscapeChar (c : Char) : Str :=
  if c = '"' then ['\\', '"']
  else if c = '\\' then ['\\', '\\']
  else if c = '\n' then ['\\', 'n']
  else if c = '\r' then ['\\', 'r']
  else if c = '\t' then ['\\', 't']
  else [c]

def jsonQuote (s : Str) : Str :=
  '"' :: (s.map jsonEscapeChar).flatten ++ ['"']

def createArtifactElement (messageId : Str) : Str :=
  "<div class=\"__boltArtifact__\" data-message-id=".data ++
    jsonQuote messageId ++ "></div>".data

/-- Parsing the same full buffer through a chain of cumulative prefix
calls (`s.take k₁`, `s.take k₂`, …, then `s` itself), threading the
per-message state, concatenating outputs and event lists. -/
def parseChunks (artEl s : Str) : List Nat → MsgState → ParseRes
  | [], ms => parseCall artEl s ms
  | k :: rest, ms =>
    let r1 := parseCall artEl (s.take k) ms
    match r1.err with
    | some m => ⟨r1.state, r1.out, r1.evs, some m⟩
    | none =>
      let r2 := parseChunks artEl s rest r1.state
      ⟨r2.state, r1.out ++ r2.out, r1.evs ++ r2.evs, r2.err⟩

/-! ## Generic JS-string helpers for the Auto-Fixer models -/

def wsRunLen (s : Str) (k : Nat) : Nat := ((s.drop k).takeWhile isWsJS).length

def skipWs (s : Str) (k : Nat) : Nat := k + wsRunLen s k

def isWordOpt : Option Char → Bool
  | some c => isWordCharJS c
  | none => false

def isQuoteOpt (o : Option Char) : Bool := o == some '\x27' || o == some '"'

/-- JS `s.includes(pat)`. -/
def containsSub (s pat : Str) : Bool := (strIndexOf s pat 0).isSome

def truthyS : Option Str → Bool
  | some s => !s.isEmpty
  | none => false

/-- JS `s.replace(pat, rep)` with a plain-string pattern: first
occurrence only. -/
def replaceFirstStr (s pat rep : Str) : Str :=
  match strIndexOf s pat 0 with
  | some k => s.take k ++ rep ++ s.drop (k + pat.length)
  | none => s

/-- First match of a regex, given its match-at-`k` end-position
function; replace it. -/
def replaceRegexFirst (s : Str) (matchEndAt : Nat → Option Nat) (rep : Str) : Str :=
  match (List.range (s.length + 1)).find? (fun k => (matchEndAt k).isSome) with
  | some k =>
    match matchEndAt k with
    | some e => s.take k ++ rep ++ s.drop e
    | none => s
  | none => s

def regexTestAny (s : Str) (matchEndAt : Nat → Option Nat) : Bool :=
  (List.range (s.length + 1)).any (fun k => (matchEndAt k).isSome)

/-- Global regex replace: leftmost match, replacement computed from the
matched text, continue after the match (never rescanning the
replacement), exactly like `String.prototype.replace` with a `g`
regex. Matchers are re-applied to the remaining suffix; all matchers
used here are insensitive to that shift (their left-context tests
coincide at a replaced boundary). -/
def replaceRegexAllF (matchEndAt : Str → Nat → Option Nat) (rep : Str → Str) :
    Nat → Str → Str
  | 0, s => s
  | fuel + 1, s =>
    match (List.range (s.length + 1)).find? (fun k => (matchEndAt s k).isSome) with
    | none => s
    | some k =>
      match matchEndAt s k with
      | some e =>
        if k < e then
          s.take k ++ rep (sliceCh s k e) ++ replaceRegexAllF matchEndAt rep fuel (s.drop e)
        else s
      | none => s

def replaceRegexAll (matchEndAt : Str → Nat → Option Nat) (rep : Str → Str) (s : Str) : Str :=
  replaceRegexAllF matchEndAt rep s.length s

/-- JS `s.lastIndexOf(c)` (recursive form). -/
def lastIdxC : Str → Char → Option Nat
  | [], _ => none
  | a :: rest, c =>
    match lastIdxC rest c with
    | some i => some (i + 1)
    | none => if a = c then some 0 else none

/-- JS `s.split(/\s+/)`: maximal whitespace runs separate the parts; a
leading (resp. trailing) whitespace run contributes a leading (resp.
trailing) empty part; `"".split` gives `[""]`. -/
def wordsOfAux : Nat → Str → List Str
  | 0, _ => []
  | _, [] => []
  | fuel + 1, c :: rest =>
    if isWsJS c then wordsOfAux fuel rest
    else ((c :: rest).takeWhile (fun d => !isWsJS d)) ::
      wordsOfAux fuel ((c :: rest).dropWhile (fun d => !isWsJS d))

def wordsOf (s : Str) : List Str := wordsOfAux s.length s

def splitWs (s : Str) : List Str :=
  if s = [] then [[]]
  else
    (if isWsJS (s.headD ' ') then [[]] else []) ++ wordsOf s ++
      (if isWsJS (s.getLastD ' ') then [[]] else [])

/-! ## Auto-Fixer data tables (`app/lib/runtime/action-fixers.ts`) -/

def packageNameCorrections : List (Str × Str) := [
  ("@lucide/icons-react".data, "lucide-react".data),
  ("@lucide/react".data, "lucide-react".data),
  ("lucide-icons".data, "lucide-react".data),
  ("@lucide-icons/react".data, "lucide-react".data),
  ("lucide-react-icons".data, "lucide-react".data),
  ("@heroicons/react/solid".data, "@heroicons/react".data),
  ("@heroicons/react/outline".data, "@heroicons/react".data),
  ("@heroicons/react/24/solid".data, "@heroicons/react".data),
  ("@heroicons/react/24/outline".data, "@heroicons/react".data),
  ("@shadcn/ui".data, "@radix-ui/react-slot".data),
  ("shadcn-ui".data, "@radix-ui/react-slot".data),
  ("react-router".data, "react-router-dom".data),
  ("@react-router".data, "react-router-dom".data),
  ("react-icon".data, "react-icons".data),
  ("@react-icons".data, "react-icons".data),
  ("@react-icons/all-files".data, "react-icons".data),
  ("tailwindcss/postcss".data, "tailwindcss".data),
  ("@tailwindcss/postcss".data, "tailwindcss".data),
  ("@tailwindcss/vite".data, "tailwindcss".data),
  ("framer-motion/react".data, "framer-motion".data),
  ("@framer-motion".data, "framer-motion".data),
  ("@framer-motion/react".data, "framer-motion".data),
  ("react-hot-toast/headless".data, "react-hot-toast".data),
  ("@react-hot-toast".data, "react-hot-toast".data),
  ("@tanstack/query".data, "@tanstack/react-query".data),
  ("react-query".data, "@tanstack/react-query".data),
  ("@tanstack/query-core".data, "@tanstack/react-query".data),
  ("@hookform/resolvers/zod".data, "@hookform/resolvers".data),
  ("@hookform/resolvers/yup".data, "@hookform/resolvers".data),
  ("@axios".data, "axios".data),
  ("axios/dist".data, "axios".data),
  ("zod/lib".data, "zod".data),
  ("@zod".data, "zod".data),
  ("moment".data, "date-fns".data),
  ("moment-timezone".data, "date-fns".data),
  ("classnames".data, "clsx".data),
  ("@types/react-dom".data, "@types/react".data),
  ("@types/pocketbase".data, "pocketbase".data),
  ("pocketbase-types".data, "pocketbase".data)]

def packagesToRemove : List Str := [
  "@shadcn/components".data,
  "@shadcn/themes".data,
  "shadcn".data,
  "@nextui/react".data,
  "@types/lucide-react".data,
  "@types/framer-motion".data,
  "@types/axios".data,
  "@types/zod".data,
  "@types/date-fns".data,
  "@types/clsx".data,
  "@types/sonner".data,
  "@types/react-router-dom".data,
  "@types/react-router".data,
  "@types/pocketbase".data,
  "@types/tailwindcss".data,
  "@types/vite".data]

def reactRequiredDevDeps : List (Str × Str) := [
  ("@vitejs/plugin-react".data, "^4.3.0".data)]

/-! ## `sanitizeNpmCommand` -/

/-- Model of `/npm\s+(install|i)\b/.test(command)`. The greedy `\s+`
is deterministic (whitespace cannot begin `install` or `i`), and the
alternation with the following `\b` reduces to the disjunction below. -/
def npmInstallMatchAt (s : Str) (k : Nat) : Bool :=
  occursAtB "npm".data s k &&
    (let w := wsRunLen s (k + 3)
     decide (1 ≤ w) &&
       (let q := k + 3 + w
        (occursAtB "install".data s q && !isWordOpt s[q + 7]?) ||
          (s[q]? == some 'i' && !isWordOpt s[q + 1]?)))

def npmInstallTest (s : Str) : Bool :=
  (List.range (s.length + 1)).any (npmInstallMatchAt s)

/-- `part.lastIndexOf('@')`-based bare-name / version split. -/
def bareVersion (part : Str) : Str × Str :=
  match lastIdxC part '@' with
  | some idx => if 0 < idx then (part.take idx, part.drop idx) else (part, [])
  | none => (part, [])

def lookupTable (t : List (Str × Str)) (k : Str) : Option Str :=
  (t.find? (fun p => p.1 == k)).map Prod.snd

def sanitizeFold (acc : List Str × Bool) (part : Str) : List Str × Bool :=
  let bv := bareVersion part
  if packagesToRemove.any (fun r => r == bv.1) then (acc.1, true)
  else
    match lookupTable packageNameCorrections bv.1 with
    | some corrected => (acc.1 ++ [corrected ++ bv.2], true)
    | none => (acc.1 ++ [part], acc.2)

def sanitizeNpmCommand (command : Str) : Str :=
  if npmInstallTest command = false then command
  else
    let res := (splitWs command).foldl sanitizeFold ([], false)
    if res.2 = false then command
    else List.intercalate [' '] res.1

/-! ## `fixPackageJson` (object level)

The source parses the manifest with `JSON.parse`, mutates the object
and re-serialises it (falling back to `repairTruncatedJson` when the
parse throws). The object manipulation — the part the claims are
about — is modelled here on a structured manifest value: the three
dependency sections, the scripts table and the `type` field are
association lists / an optional string, JS key order preserved
(updates in place, new keys appended). -/

abbrev Deps := List (Str × Str)

/-- JS object field lookup on a key-ordered association list. -/
def alookup {α : Type} (l : List (Str × α)) (k : Str) : Option α :=
  (l.find? (fun p => p.1 == k)).map Prod.snd

def ahas {α : Type} (l : List (Str × α)) (k : Str) : Bool := (alookup l k).isSome

/-- JS object field assignment: update in place, or append a new key. -/
def aset {α : Type} (l : List (Str × α)) (k : Str) (v : α) : List (Str × α) :=
  if ahas l k then l.map (fun p => if p.1 == k then (p.1, v) else p) else l ++ [(k, v)]

/-- JS `delete obj[k]`. -/
def adel {α : Type} (l : List (Str × α)) (k : Str) : List (Str × α) :=
  l.filter (fun p => p.1 != k)

structure Pkg where
  dependencies : Option Deps
  devDependencies : Option Deps
  peerDependencies : Option Deps
  scripts : Option Deps
  ptype : Option Str
deriving Repr, DecidableEq

def getDep (o : Option Deps) (k : Str) : Option Str :=
  match o with
  | some d => alookup d k
  | none => none

def mapSections (f : Deps → Deps) (p : Pkg) : Pkg :=
  { p with dependencies := p.dependencies.map f,
           devDependencies := p.devDependencies.map f,
           peerDependencies := p.peerDependencies.map f }

/-- One entry of the PACKAGE_NAME_CORRECTIONS pass: rename `wrong` to
`correct`, keeping the version, unless `correct` is already present. -/
def applyCorrectionEntry (d : Deps) (e : Str × Str) : Deps :=
  if ahas d e.1 then
    let version := (alookup d e.1).getD []
    let d1 := adel d e.1
    if ahas d1 e.2 then d1 else aset d1 e.2 version
  else d

def applyCorrections (d : Deps) : Deps := packageNameCorrections.foldl applyCorrectionEntry d

def applyRemovals (d : Deps) : Deps :=
  packagesToRemove.foldl (fun d k => if ahas d k then adel d k else d) d

def fixDepsSection (d : Deps) : Deps := applyRemovals (applyCorrections d)

/-- `/^\^?[34]\./` style version-major test. -/
def versionMajorIn (ds : List Char) (s : Str) : Bool :=
  let t := match s with
    | '^' :: rest => rest
    | _ => s
  match t with
  | d :: '.' :: _ => ds.contains d
  | _ => false

def viteStr : Str := "vite".data
def reactStr : Str := "react".data
def pluginReactPkg : Str := "@vitejs/plugin-react".data
def devStr : Str := "dev".data

def upgradeViteSection (o : Option Deps) : Option Deps :=
  match o with
  | none => none
  | some d =>
    let d1 :=
      if truthyS (alookup d viteStr) && versionMajorIn ['3', '4'] ((alookup d viteStr).getD [])
      then aset d viteStr "^5.4.0".data else d
    let d2 :=
      if truthyS (alookup d1 pluginReactPkg) &&
         versionMajorIn ['1', '2', '3'] ((alookup d1 pluginReactPkg).getD [])
      then aset d1 pluginReactPkg "^4.3.0".data else d1
    some d2

def bannedFrameworks : List (Str × List Str) := [
  ("Next.js".data, ["next".data, "eslint-config-next".data, "@next/font".data, "@next/env".data]),
  ("Astro".data, ["astro".data, "@astrojs/react".data, "@astrojs/vue".data, "@astrojs/svelte".data,
    "@astrojs/solid-js".data, "@astrojs/tailwind".data, "@astrojs/node".data,
    "@astrojs/vercel".data, "@astrojs/netlify".data]),
  ("Angular".data, ["@angular/core".data, "@angular/cli".data, "@angular/common".data,
    "@angular/compiler".data, "@angular/platform-browser".data,
    "@angular/platform-browser-dynamic".data, "@angular/router".data, "@angular/forms".data]),
  ("SolidStart".data, ["solid-start".data, "@solidjs/start".data, "@solidjs/router".data,
    "@solidjs/meta".data]),
  ("Qwik".data, ["@builder.io/qwik".data, "@builder.io/qwik-city".data,
    "@builder.io/sdk-qwik".data]),
  ("SvelteKit".data, ["@sveltejs/kit".data, "@sveltejs/adapter-auto".data,
    "@sveltejs/adapter-node".data, "@sveltejs/adapter-static".data,
    "@sveltejs/adapter-vercel".data, "@sveltejs/adapter-netlify".data]),
  ("Nuxt".data, ["nuxt".data, "@nuxt/kit".data, "@nuxt/schema".data, "@nuxt/devtools".data]),
  ("Gatsby".data, ["gatsby".data, "gatsby-plugin-react-helmet".data, "gatsby-plugin-image".data,
    "gatsby-source-filesystem".data]),
  ("Remix".data, ["@remix-run/react".data, "@remix-run/node".data, "@remix-run/serve".data,
    "@remix-run/dev".data])]

def pkgSectionHasTruthy (p : Pkg) (name : Str) : Bool :=
  truthyS (getDep p.dependencies name) || truthyS (getDep p.devDependencies name) ||
    truthyS (getDep p.peerDependencies name)

def deleteFromAllSections (p : Pkg) (names : List Str) : Pkg :=
  mapSections (fun d => names.foldl (fun d n => adel d n) d) p

/-- The banned-framework scan and delete (pass 7 of `fixPackageJson`);
returns the updated manifest and whether any framework was found. -/
def removeBannedFrameworks (p : Pkg) : Pkg × Bool :=
  bannedFrameworks.foldl
    (fun (acc : Pkg × Bool) fw =>
      if fw.2.any (fun pk => pkgSectionHasTruthy acc.1 pk) then
        (deleteFromAllSections acc.1 fw.2, true)
      else acc)
    (p, false)

def pbSetupPat : Str := "pb-setup.js && vite".data
def pbSetupRepl : Str := "pb-setup.js; vite".data

/-- Object-level model of `fixPackageJson` (the JSON.parse success
path). Pass numbering follows the source comments. -/
def fixPackageJsonObj (p0 : Pkg) : Pkg :=
  -- 1. name corrections and removals, per dependency section
  let p1 := mapSections fixDepsSection p0
  -- 2. `"type": "module"` for Vite projects
  let hasVite := truthyS (getDep p1.devDependencies viteStr) ||
    truthyS (getDep p1.dependencies viteStr)
  let p2 := if hasVite && !truthyS p1.ptype then { p1 with ptype := some "module".data } else p1
  -- 3. React + Vite projects get @vitejs/plugin-react
  let hasReact := truthyS (getDep p2.dependencies reactStr) ||
    truthyS (getDep p2.devDependencies reactStr)
  let p3 :=
    if hasReact && hasVite then
      let dev0 := p2.devDependencies.getD []
      let dev1 := reactRequiredDevDeps.foldl
        (fun d e =>
          if !truthyS (alookup d e.1) && !truthyS (getDep p2.dependencies e.1) then
            aset d e.1 e.2
          else d)
        dev0
      { p2 with devDependencies := some dev1 }
    else p2
  -- 4. vite / plugin-react version upgrades
  let p4 := { p3 with dependencies := upgradeViteSection p3.dependencies,
                      devDependencies := upgradeViteSection p3.devDependencies,
                      peerDependencies := upgradeViteSection p3.peerDependencies }
  -- 5. ensure scripts.dev
  let scr0 := p4.scripts.getD []
  let scr1 := if !truthyS (alookup scr0 devStr) && hasVite then aset scr0 devStr viteStr else scr0
  -- 6. `pb-setup.js && vite` → `pb-setup.js; vite`
  let scr2 :=
    match alookup scr1 devStr with
    | some dv =>
      if !dv.isEmpty && containsSub dv pbSetupPat then
        aset scr1 devStr (replaceFirstStr dv pbSetupPat pbSetupRepl)
      else scr1
    | none => scr1
  let p6 := { p4 with scripts := some scr2 }
  -- 7. banned frameworks → Vite + React baseline
  let pb := removeBannedFrameworks p6
  if pb.2 then
    let q0 := pb.1
    let dep0 := q0.dependencies.getD []
    let dep1 := if !truthyS (alookup dep0 reactStr) then aset dep0 reactStr "^18.3.0".data else dep0
    let dep2 := if !truthyS (alookup dep1 "react-dom".data) then
        aset dep1 "react-dom".data "^18.3.0".data else dep1
    let dv0 := q0.devDependencies.getD []
    let dv1 := if !truthyS (alookup dv0 viteStr) then aset dv0 viteStr "^5.4.0".data else dv0
    let dv2 := if !truthyS (alookup dv1 pluginReactPkg) then
        aset dv1 pluginReactPkg "^4.3.0".data else dv1
    let sc0 := q0.scripts.getD []
    let sc1 := aset sc0 devStr viteStr
    let sc2 := aset sc1 "build".data "vite build".data
    let sc3 := aset sc2 "start".data "vite preview".data
    { dependencies := some dep2, devDependencies := some dv2,
      peerDependencies := q0.peerDependencies, scripts := some sc3,
      ptype := if !truthyS q0.ptype then some "module".data else q0.ptype }
  else p6

/-! ## `fixViteConfig` -/

/-- `/plugins\s*:/` (greedy `\s*` is deterministic: whitespace is
disjoint from `:`). -/
def pluginsColonAt (s : Str) (k : Nat) : Option Nat :=
  if occursAtB "plugins".data s k then
    let p1 := skipWs s (k + 7)
    if s[p1]? = some ':' then some (p1 + 1) else none
  else none

/-- `/react\s*\(/`. -/
def reactCallAt (s : Str) (k : Nat) : Option Nat :=
  if occursAtB "react".data s k then
    let p1 := skipWs s (k + 5)
    if s[p1]? = some '(' then some (p1 + 1) else none
  else none

/-- `/plugins\s*:\s*\[/` match at `k` (returns the end index). -/
def pluginsBracketAt (s : Str) (k : Nat) : Option Nat :=
  if occursAtB "plugins".data s k then
    let p1 := skipWs s (k + 7)
    if s[p1]? = some ':' then
      let p2 := skipWs s (p1 + 1)
      if s[p2]? = some '[' then some (p2 + 1) else none
    else none
  else none

/-- `export\s+default\s+` match at `k` (end after the trailing
whitespace run, which must be nonempty in both gaps). -/
def exportDefaultAt (s : Str) (k : Nat) : Option Nat :=
  if occursAtB "export".data s k then
    let w1 := wsRunLen s (k + 6)
    if 1 ≤ w1 then
      let p1 := k + 6 + w1
      if occursAtB "default".data s p1 then
        let w2 := wsRunLen s (p1 + 7)
        if 1 ≤ w2 then some (p1 + 7 + w2) else none
      else none
    else none
  else none

/-- `/export\s+default\s+defineConfig\s*\(\s*\{/` (end after the
brace). -/
def exportDefaultDefineConfigBraceAt (s : Str) (k : Nat) : Option Nat :=
  match exportDefaultAt s k with
  | some e =>
    if occursAtB "defineConfig".data s e then
      let p1 := skipWs s (e + 12)
      if s[p1]? = some '(' then
        let p2 := skipWs s (p1 + 1)
        if s[p2]? = some '\x7b' then some (p2 + 1) else none
      else none
    else none
  | none => none

/-- `const\s+(\w+)\s*=\s*require\(['"]([^'"]+)['"]\);?` at `k`:
returns the end index and the two captures. -/
def constRequireAt (s : Str) (k : Nat) : Option (Nat × Str × Str) :=
  if occursAtB "const".data s k then
    let w1 := wsRunLen s (k + 5)
    if 1 ≤ w1 then
      let p2 := k + 5 + w1
      let name := (s.drop p2).takeWhile isWordCharJS
      if name ≠ [] then
        let p4 := skipWs s (p2 + name.length)
        if s[p4]? = some '=' then
          let p5 := skipWs s (p4 + 1)
          if occursAtB "require(".data s p5 then
            let p6 := p5 + 8
            if isQuoteOpt s[p6]? then
              let path := (s.drop (p6 + 1)).takeWhile (fun c => c ≠ '\x27' ∧ c ≠ '"')
              if path ≠ [] then
                let p7 := p6 + 1 + path.length
                if isQuoteOpt s[p7]? ∧ s[p7 + 1]? = some ')' then
                  some ((if s[p7 + 2]? = some ';' then p7 + 3 else p7 + 2), name, path)
                else none
              else none
            else none
          else none
        else none
      else none
    else none
  else none

def firstConstRequire (s : Str) : Option (Nat × Nat × Str × Str) :=
  match (List.range (s.length + 1)).find? (fun k => (constRequireAt s k).isSome) with
  | some k =>
    match constRequireAt s k with
    | some (e, name, path) => some (k, e, name, path)
    | none => none
  | none => none

/-- Global replace of `const X = require('Y');?` by
`import X from 'Y';`. -/
def replaceConstRequireAux : Nat → Str → Str
  | 0, s => s
  | fuel + 1, s =>
    match firstConstRequire s with
    | none => s
    | some (k, e, name, path) =>
      if k < e then
        s.take k ++ "import ".data ++ name ++ " from \x27".data ++ path ++ "\x27;".data ++
          replaceConstRequireAux fuel (s.drop e)
      else s

def replaceConstRequire (s : Str) : Str := replaceConstRequireAux s.length s

def viteImportLine : Str := "import react from \x27@vitejs/plugin-react\x27;\n".data

def viteDefineConfigRepl : Str :=
  "export default defineConfig(\x7b\n  plugins: [react()],".data

def fixViteConfig (content : Str) : Str :=
  let hasReactPlugin := containsSub content "plugin-react".data ||
    containsSub content "@vitejs/plugin-react".data
  let definesPlugins := regexTestAny content (pluginsColonAt content)
  let fixed1 :=
    if !hasReactPlugin && definesPlugins then
      let fa := if !containsSub content "from \x27@vitejs/plugin-react\x27".data then
          viteImportLine ++ content else content
      if !regexTestAny fa (reactCallAt fa) then
        replaceRegexFirst fa (pluginsBracketAt fa) "plugins: [react(), ".data
      else fa
    else content
  let fixed2 :=
    if !hasReactPlugin && !definesPlugins then
      let fa := viteImportLine ++ fixed1
      replaceRegexFirst fa (exportDefaultDefineConfigBraceAt fa) viteDefineConfigRepl
    else fixed1
  if containsSub fixed2 "require(".data && containsSub fixed2 "import ".data then
    replaceConstRequire fixed2
  else fixed2

/-! ## `fixSourceImports` -/

/-- `from\s+['"]INNER['"]` at `k` (quotes independent, `\s+`
nonempty). -/
def fromQuotedAt (inner : Str) (s : Str) (k : Nat) : Option Nat :=
  if occursAtB "from".data s k then
    let w := wsRunLen s (k + 4)
    if 1 ≤ w then
      let p := k + 4 + w
      if isQuoteOpt s[p]? ∧ occursAtB inner s (p + 1) ∧
          isQuoteOpt s[p + 1 + inner.length]? then
        some (p + inner.length + 2)
      else none
    else none
  else none

/-- `from\s+['"]@lucide\/(?:icons-react|react)['"]` (alternation tried
left to right). -/
def lucideFromAt (s : Str) (k : Nat) : Option Nat :=
  match fromQuotedAt "@lucide/icons-react".data s k with
  | some e => some e
  | none => fromQuotedAt "@lucide/react".data s k

/-- `import\s*\{\s*NAME\s*\}\s*from\s*['"]PKG['"]` at `k`. -/
def namedImportAt (name pkg : Str) (s : Str) (k : Nat) : Option Nat :=
  if occursAtB "import".data s k then
    let p1 := skipWs s (k + 6)
    if s[p1]? = some '\x7b' then
      let p2 := skipWs s (p1 + 1)
      if occursAtB name s p2 then
        let p3 := skipWs s (p2 + name.length)
        if s[p3]? = some '\x7d' then
          let p4 := skipWs s (p3 + 1)
          if occursAtB "from".data s p4 then
            let p5 := skipWs s (p4 + 4)
            if isQuoteOpt s[p5]? ∧ occursAtB pkg s (p5 + 1) ∧
                isQuoteOpt s[p5 + 1 + pkg.length]? then
              some (p5 + pkg.length + 2)
            else none
          else none
        else none
      else none
    else none
  else none

/-- `(\bpb\.collection\([^)]+\)\.getList\([^)]*\))(?![\s\S]*?\.catch)`
at `k`; the negative lookahead means no `.catch` occurrence at or
after the end of the group. -/
def pbGetListAt (s : Str) (k : Nat) : Option Nat :=
  if (decide (k = 0) || !isWordOpt s[k - 1]?) && occursAtB "pb.collection(".data s k then
    let args1 := (s.drop (k + 14)).takeWhile (fun c => c ≠ ')')
    if args1 ≠ [] ∧ s[k + 14 + args1.length]? = some ')' then
      let q := k + 14 + args1.length + 1
      if occursAtB ".getList(".data s q then
        let args2 := (s.drop (q + 9)).takeWhile (fun c => c ≠ ')')
        if s[q + 9 + args2.length]? = some ')' then
          let e := q + 9 + args2.length + 1
          if (strIndexOf s ".catch".data e).isSome then none else some e
        else none
      else none
    else none
  else none

def tsxLikePath (filePath : Str) : Bool :=
  endsWithStr filePath ".ts".data || endsWithStr filePath ".tsx".data ||
    endsWithStr filePath ".jsx".data

def fixSourceImports (content : Str) (filePath : Str) : Str :=
  let f0 := content
  let f1 := if regexTestAny f0 (lucideFromAt f0) then
      replaceRegexAll lucideFromAt (fun _ => "from \x27lucide-react\x27".data) f0
    else f0
  let f2 := if regexTestAny f1 (fromQuotedAt "react-router".data f1) &&
      !containsSub f1 "react-router-dom".data then
      replaceRegexAll (fromQuotedAt "react-router".data)
        (fun _ => "from \x27react-router-dom\x27".data) f1
    else f1
  let f3 := if regexTestAny f2 (fromQuotedAt "react-query".data f2) then
      replaceRegexAll (fromQuotedAt "react-query".data)
        (fun _ => "from \x27@tanstack/react-query\x27".data) f2
    else f2
  let f4 := if regexTestAny f3 (namedImportAt "PocketBase".data "pocketbase".data f3) then
      replaceRegexAll (namedImportAt "PocketBase".data "pocketbase".data)
        (fun _ => "import PocketBase from \x27pocketbase\x27".data) f3
    else f3
  let f5 := if regexTestAny f4 (namedImportAt "axios".data "axios".data f4) then
      replaceRegexAll (namedImportAt "axios".data "axios".data)
        (fun _ => "import axios from \x27axios\x27".data) f4
    else f4
  let f6 := if regexTestAny f5 (fromQuotedAt "framer-motion/react".data f5) then
      replaceRegexAll (fromQuotedAt "framer-motion/react".data)
        (fun _ => "from \x27framer-motion\x27".data) f5
    else f5
  let f7 :=
    if containsSub f6 "pocketbase".data && containsSub f6 "useEffect".data &&
        containsSub f6 ".getList(".data && !containsSub f6 ".catch(".data then
      if regexTestAny f6 (pbGetListAt f6) then
        replaceRegexAll pbGetListAt (fun g => g ++ ".catch(() => \x7b\x7d)".data) f6
      else f6
    else f6
  if tsxLikePath filePath && containsSub f7 "require(".data then
    replaceConstRequire f7
  else f7

/-! ## `fixTailwindOrPostcssConfig` and `extractTailwindPlugins` -/

def knownTailwindPlugins : List (Str × Str) := [
  ("tailwindcss-animate".data, "^1.0.7".data),
  ("@tailwindcss/typography".data, "^0.5.15".data),
  ("@tailwindcss/forms".data, "^0.5.9".data),
  ("@tailwindcss/aspect-ratio".data, "^0.4.2".data),
  ("@tailwindcss/container-queries".data, "^0.1.1".data),
  ("daisyui".data, "^4.12.0".data),
  ("flowbite".data, "^2.5.0".data)]

/-- `require\s*\(\s*['"]([^'"]+)['"]\s*\)` at `k`: end index and the
captured package name. -/
def requireCallAt (s : Str) (k : Nat) : Option (Nat × Str) :=
  if occursAtB "require".data s k then
    let p1 := skipWs s (k + 7)
    if s[p1]? = some '(' then
      let p2 := skipWs s (p1 + 1)
      if isQuoteOpt s[p2]? then
        let pkg := (s.drop (p2 + 1)).takeWhile (fun c => c ≠ '\x27' ∧ c ≠ '"')
        if pkg ≠ [] then
          let p3 := p2 + 1 + pkg.length
          if isQuoteOpt s[p3]? then
            let p4 := skipWs s (p3 + 1)
            if s[p4]? = some ')' then some (p4 + 1, pkg) else none
          else none
        else none
      else none
    else none
  else none

def firstRequireCall (s : Str) : Option (Nat × Nat × Str) :=
  match (List.range (s.length + 1)).find? (fun k => (requireCallAt s k).isSome) with
  | some k =>
    match requireCallAt s k with
    | some (e, pkg) => some (k, e, pkg)
    | none => none
  | none => none

def tailwindCoreDeps : List Str := ["tailwindcss".data, "autoprefixer".data, "postcss".data]

/-- `extractTailwindPlugins`: exec-loop over the global require regex,
collecting captures that are not postcss core packages. -/
def extractTailwindPluginsAux : Nat → Str → List Str
  | 0, _ => []
  | fuel + 1, s =>
    match firstRequireCall s with
    | none => []
    | some (k, e, pkg) =>
      if k < e then
        (if tailwindCoreDeps.any (fun c => c == pkg) then
          extractTailwindPluginsAux fuel (s.drop e)
        else pkg :: extractTailwindPluginsAux fuel (s.drop e))
      else []

def extractTailwindPlugins (content : Str) : List Str :=
  extractTailwindPluginsAux content.length content

/-- `import\s*\{?\s*defineConfig\s*\}?\s*from\s*['"]tailwindcss['"]`
at `k` (the optional braces are taken greedily; end after the closing
quote). -/
def twImportDefineAt (s : Str) (k : Nat) : Option Nat :=
  if occursAtB "import".data s k then
    let p1 := skipWs s (k + 6)
    let p2 := if s[p1]? = some '\x7b' then skipWs s (p1 + 1) else p1
    if occursAtB "defineConfig".data s p2 then
      let p3 := skipWs s (p2 + 12)
      let p4 := if s[p3]? = some '\x7d' then skipWs s (p3 + 1) else p3
      if occursAtB "from".data s p4 then
        let p5 := skipWs s (p4 + 4)
        if isQuoteOpt s[p5]? ∧ occursAtB "tailwindcss".data s (p5 + 1) ∧
            isQuoteOpt s[p5 + 12]? then
          some (p5 + 13)
        else none
      else none
    else none
  else none

/-- The same with the trailing `\s*;?\n?` of the replace pattern. -/
def twImportDefineLineAt (s : Str) (k : Nat) : Option Nat :=
  match twImportDefineAt s k with
  | some e =>
    let t1 := skipWs s e
    let t2 := if s[t1]? = some ';' then t1 + 1 else t1
    some (if s[t2]? = some '\n' then t2 + 1 else t2)
  | none => none

/-- `/export\s+default\s+defineConfig\s*\(/` test. -/
def exportDefaultDefineConfigParenAt (s : Str) (k : Nat) : Option Nat :=
  match exportDefaultAt s k with
  | some e =>
    if occursAtB "defineConfig".data s e then
      let p1 := skipWs s (e + 12)
      if s[p1]? = some '(' then some (p1 + 1) else none
    else none
  | none => none

/-- `/export\s+default\s+defineConfig\s*\(\s*/` (the trailing `\s*`
belongs to the match). -/
def exportDefaultDefineConfigParenWsAt (s : Str) (k : Nat) : Option Nat :=
  match exportDefaultDefineConfigParenAt s k with
  | some e => some (skipWs s e)
  | none => none

/-- `/\)\s*;?\s*$/` at `k` (anchored at the end of the string). -/
def closeParenTailAt (s : Str) (k : Nat) : Option Nat :=
  if s[k]? = some ')' then
    let t := (s.drop (k + 1)).dropWhile isWsJS
    let t2 := match t with
      | ';' :: r => r
      | _ => t
    if t2.all isWsJS then some s.length else none
  else none

/-- `/export\s+default\s+\{/` test. -/
def exportDefaultBraceAt (s : Str) (k : Nat) : Option Nat :=
  match exportDefaultAt s k with
  | some e => if s[e]? = some '\x7b' then some (e + 1) else none
  | none => none

/-- First `\n` at an index `≥ k` (or the string length): the limit for
the dot in a multiline-mode regex. -/
def lineEndFrom (s : Str) (k : Nat) : Nat :=
  k + ((s.drop k).takeWhile (fun c => c ≠ '\n')).length

/-- `/^import\s+.*from\s+['"].*['"]\s*;?\n?/gm` at `k` (so `k` is the
string start or preceded by `\n`). Backtracking order: the `\s+` after
`import` prefers the longest run, the first `.*` the rightmost viable
`from`, the `\s+` after `from` is deterministic, the second `.*`
prefers the rightmost quote on its line, and the tail is optional.
Returns the match end. -/
def importLineMatchTail (s : Str) (fromPos : Nat) : Option Nat :=
  let w2 := wsRunLen s (fromPos + 4)
  if 1 ≤ w2 then
    let p := fromPos + 4 + w2
    if isQuoteOpt s[p]? then
      let le2 := lineEndFrom s (p + 1)
      match (List.range (le2 - p)).reverse.find?
          (fun d => decide (1 ≤ d) && isQuoteOpt s[p + d]?) with
      | some d =>
        let q2 := p + d
        let t1 := skipWs s (q2 + 1)
        let t2 := if s[t1]? = some ';' then t1 + 1 else t1
        some (if s[t2]? = some '\n' then t2 + 1 else t2)
      | none => none
    else none
  else none

def importLineAt (s : Str) (k : Nat) : Option Nat :=
  if (decide (k = 0) || s[k - 1]? == some '\n') && occursAtB "import".data s k then
    let wmax := wsRunLen s (k + 6)
    ((List.range wmax).reverse.map (fun i => i + 1)).firstM (fun w =>
      let a0 := k + 6 + w
      let le := lineEndFrom s a0
      ((List.range (le + 1 - a0)).reverse.map (fun d => a0 + d)).firstM (fun fp =>
        if occursAtB "from".data s fp ∧ fp + 4 ≤ le then importLineMatchTail s fp
        else none))
  else none

/-- `(\{[\s\S]*\})\s*;?\s*$`: first `{`, last viable `}`. Returns the
span of the capture group. -/
def braceObjMatch (s : Str) : Option (Nat × Nat) :=
  match strIndexOf s "\x7b".data 0 with
  | some k1 =>
    match (List.range s.length).reverse.find?
        (fun j => decide (k1 + 1 ≤ j) && (s[j]? == some '\x7d') &&
          (let t := (s.drop (j + 1)).dropWhile isWsJS
           let t2 := match t with
             | ';' :: r => r
             | _ => t
           t2.all isWsJS)) with
    | some j => some (k1, j)
    | none => none
  | none => none

def requireLitSQ (pkg : Str) : Str := "require(\x27".data ++ pkg ++ "\x27)".data

def requireLitDQ (pkg : Str) : Str := "require(\"".data ++ pkg ++ "\")".data

def safeRequire (pkg : Str) : Str :=
  "(() => \x7b try \x7b return require(\x27".data ++ pkg ++
    "\x27); \x7d catch (e) \x7b console.warn(\x27[tailwind plugin missing]\x27, \x27".data ++
    pkg ++ "\x27); return () => (\x7b\x7d); \x7d \x7d)()".data

/-- `require\s*\(\s*['"]PKG['"]\s*\)` for a fixed package name. -/
def requirePkgAt (pkg : Str) (s : Str) (k : Nat) : Option Nat :=
  if occursAtB "require".data s k then
    let p1 := skipWs s (k + 7)
    if s[p1]? = some '(' then
      let p2 := skipWs s (p1 + 1)
      if isQuoteOpt s[p2]? ∧ occursAtB pkg s (p2 + 1) ∧
          isQuoteOpt s[p2 + 1 + pkg.length]? then
        let p4 := skipWs s (p2 + 2 + pkg.length)
        if s[p4]? = some ')' then some (p4 + 1) else none
      else none
    else none
  else none

def fixTailwindOrPostcssConfig (content : Str) (filePath : Str) : Str :=
  -- 1. strip the fake defineConfig import from 'tailwindcss'
  let f1 := if regexTestAny content (twImportDefineAt content) then
      replaceRegexAll twImportDefineLineAt (fun _ => []) content
    else content
  -- 2. export default defineConfig( → module.exports =
  let f2 := if regexTestAny f1 (exportDefaultDefineConfigParenAt f1) then
      let fa := replaceRegexFirst f1 (exportDefaultDefineConfigParenWsAt f1)
        "module.exports = ".data
      replaceRegexFirst fa (closeParenTailAt fa) ";\n".data
    else f1
  -- 3. export default { → module.exports = {
  let f3 := if regexTestAny f2 (exportDefaultBraceAt f2) then
      replaceRegexFirst f2 (exportDefaultAt f2) "module.exports = ".data
    else f2
  -- 4. strip remaining import lines
  let f4 := replaceRegexAll importLineAt (fun _ => []) f3
  -- 5. wrap a trailing object literal in module.exports
  let f5 :=
    if !containsSub f4 "module.exports".data then
      match braceObjMatch f4 with
      | some (k1, j) => "module.exports = ".data ++ sliceCh f4 k1 (j + 1) ++ ";\n".data
      | none => f4
    else f4
  -- 6. wrap third-party plugin requires in a guarded IIFE
  let plugins := extractTailwindPlugins f5
  if plugins ≠ [] ∧ regexTestAny f5 (pluginsColonAt f5) then
    plugins.foldl
      (fun f pkg =>
        if containsSub f (requireLitSQ pkg) || containsSub f (requireLitDQ pkg) then
          replaceRegexAll (requirePkgAt pkg) (fun _ => safeRequire pkg) f
        else f)
      f5
  else f5

/-! ## Action Runner model (`app/lib/runtime/action-runner.ts`)

`ActionRunner.actions` is a nanostores map keyed by action id; the
execution chain and the `.then` continuation scheduled by `addAction`
are modelled as explicit events delivered to a small-step transition
function, reflecting the single-threaded microtask scheduling. -/

inductive AStatus where
  | pending
  | running
  | complete
  | aborted
  | failed
deriving Repr, DecidableEq

structure ActState where
  action : ActionData
  status : AStatus
  executed : Bool
  abortSignalled : Bool
  error : Option Str
deriving Repr, DecidableEq

structure RState where
  actions : List (Str × ActState)
  scheduled : List Str
deriving Repr, DecidableEq

def initRState : RState := ⟨[], []⟩

/-- `ActionRunner.addAction`: register the id once (duplicate ids are
a no-op) in `pending`, and schedule the `{status:'running'}` update
that fires when the current execution promise resolves. -/
def addAction (st : RState) (id : Str) (a : ActionData) : RState :=
  match alookup st.actions id with
  | some _ => st
  | none =>
    { actions := aset st.actions id ⟨a, .pending, false, false, none⟩,
      scheduled := st.scheduled ++ [id] }

/-- The `abort` closure stored on the action: trip the abort signal,
then `#updateAction(id, { status: 'aborted' })`. -/
def abortAction (st : RState) (id : Str) : RState :=
  match alookup st.actions id with
  | some a =>
    { st with actions := aset st.actions id { a with abortSignalled := true, status := .aborted } }
  | none => st

/-- The continuation `.then(() => #updateAction(id, { status:
'running' }))` scheduled by `addAction` resolving: it fires once and
sets the status unconditionally. -/
def deliverScheduled (st : RState) (id : Str) : RState :=
  if st.scheduled.contains id then
    match alookup st.actions id with
    | some a =>
      { actions := aset st.actions id { a with status := .running },
        scheduled := st.scheduled.erase id }
    | none => { st with scheduled := st.scheduled.erase id }
  else st

inductive RunDisposition where
  | missing
  | skippedExecuted
  | skippedStreamingNonFile
  | enqueued
deriving Repr, DecidableEq

/-- `ActionRunner.runAction` up to the point where `#executeAction` is
chained: the guards, and the `{...action, ...data.action, executed:
!isStreaming}` merge. The disposition records whether the per-type
handler was chained at all. -/
def runAction (st : RState) (id : Str) (dataAction : ActionData) (isStreaming : Bool) :
    RState × RunDisposition :=
  match alookup st.actions id with
  | none => (st, .missing)
  | some a =>
    if a.executed then (st, .skippedExecuted)
    else if isStreaming ∧ ¬a.action.atype = some fileStr then (st, .skippedStreamingNonFile)
    else
      let a2 : ActState := { a with action := dataAction, executed := !isStreaming }
      ({ st with actions := aset st.actions id a2 }, .enqueued)

inductive RunnerEv where
  | add (id : Str) (a : ActionData)
  | abortEv (id : Str)
  | deliverRunning (id : Str)
deriving Repr, DecidableEq

def runnerStep (st : RState) (e : RunnerEv) : RState :=
  match e with
  | .add id a => addAction st id a
  | .abortEv id => abortAction st id
  | .deliverRunning id => deliverScheduled st id

def runTrace (st : RState) (es : List RunnerEv) : RState := es.foldl runnerStep st

def statusOf (st : RState) (id : Str) : Option AStatus :=
  (alookup st.actions id).map ActState.status

/-- "Content ends with exactly one trailing newline". -/
def endsWithOneNl (s : Str) : Bool :=
  s.getLast? == some '\n' && !(s.dropLast.getLast? == some '\n')

/-! ## Concrete example inputs used by witnesses and counterexamples -/

/-- A complete single-artifact single-file-action buffer (the worked
example of the specification). -/
def exampleBuffer : Str :=
  "<boltArtifact id=\"a1\" title=\"T\" type=\"app\"><boltAction type=\"file\" filePath=\"src/App.tsx\">console.log(1)</boltAction></boltArtifact>".data

/-- The same buffer truncated inside the file content (no close tag). -/
def exampleTruncated : Str := exampleBuffer.take 100

/-- A buffer ending inside an unclosed file action with pending
content. -/
def exampleOpenAction : Str :=
  "<boltArtifact id=\"a\" title=\"t\"><boltAction type=\"file\" filePath=\"x.ts\">abc".data

/-- A PocketBase collection action tag. -/
def c6Tag : Str := "<boltAction type=\"pocketbase\" operation=\"collection\">".data

def exampleShellAction : ActionData := ⟨some "shell".data, "ls".data, none, none⟩

def exampleExecutedState : ActState :=
  ⟨exampleShellAction, AStatus.complete, true, false, none⟩

def exampleRunnerState : RState := ⟨[("0".data, exampleExecutedState)], []⟩

/-- Tailwind config with one third-party plugin require. -/
def twC9Input : Str :=
  "module.exports = \x7b plugins: [require(\x27daisyui\x27)] \x7d;".data

/-- Source file on which the `const … = require(…)` → `import` rewrite
is not idempotent (the rewritten text exposes a second match). -/
def srcAdvC9 : Str :=
  "const a = require(\x27const b = require(\x27);x\x27)".data

/-- Vite config variant of the same phenomenon (the injection passes
are skipped because `plugin-react` is already mentioned). -/
def viteAdvC9 : Str :=
  ("// plugin-react\nimport x from \x27y\x27;\n".data ++ srcAdvC9)

/-- Manifest whose dev script contains the `pb-setup.js && vite`
pattern twice; the rewrite replaces only the first occurrence. -/
def pkgPbC9 : Pkg :=
  ⟨none, none, none,
   some [("dev".data, "node pb-setup.js && vite x pb-setup.js && vite".data)], none⟩

/-- Structural invariant of reachable per-message parser states: an
open action implies an open artifact, and an open artifact implies a
current artifact object (the source pairs these assignments). -/
def MInv (st : MState) : Prop :=
  (st.insideAction = true → st.insideArtifact = true) ∧
    (st.insideArtifact = true → st.currentArtifact.isSome = true)

/-- A token with no whitespace characters. -/
def wsFree (p : Str) : Bool := p.all (fun c => !isWsJS c)

/-- A command token that triggers neither the removal nor the
correction branch of `sanitizeNpmCommand`. -/
def cleanPartB (p : Str) : Bool :=
  !(packagesToRemove.any (fun r => r == (bareVersion p).1)) &&
    (lookupTable packageNameCorrections (bareVersion p).1).isNone

/-- Events carried by one step outcome. -/
def stepEvs : StepRes → List Ev
  | .next _ _ evs => evs
  | .brk evs => evs
  | _ => []

/-- The C10 property of a single event: if it is an `onActionClose`
for a file action, its content ends with exactly one newline. -/
def evFileCloseOneNl (e : Ev) : Prop :=
  ∀ artId aid act, e = Ev.actionClose artId aid act → act.atype = some fileStr →
    endsWithOneNl act.content = true

/-! # Theorems -/

/-- C3: for every registered action whose `ActionState` has
`executed = true`, a subsequent `runAction` call with the same id is a
no-op: the state is unchanged and no per-type handler is chained
(disposition `skippedExecuted`), so the action is never re-executed. -/
theorem executed_action_never_rerun (st : RState) (id : Str) (a : ActState)
    (d : ActionData) (isStreaming : Bool)
    (hl : alookup st.actions id = some a) (hex : a.executed = true) :
    runAction st id d isStreaming = (st, RunDisposition.skippedExecuted) := by
  unfold runAction
  rw [hl]
  simp [hex]

theorem executed_action_never_rerun_witness :
    runAction exampleRunnerState "0".data exampleShellAction false =
      (exampleRunnerState, RunDisposition.skippedExecuted) :=
  executed_action_never_rerun exampleRunnerState "0".data exampleExecutedState
    exampleShellAction false (by decide) (by decide)

/-- C5 (counterexample): after `addAction` the action is `pending`;
calling `abort()` sets it to `aborted`; but when the
`{status:'running'}` continuation scheduled by `addAction` then
resolves, the status is overwritten to `running` — so an aborted
pending action does reach `running` at a later point, contradicting
the claim. -/
theorem abort_pending_counterexample :
    (statusOf (runTrace initRState [RunnerEv.add "0".data exampleShellAction])
        "0".data = some AStatus.pending) ∧
    (statusOf (runTrace initRState [RunnerEv.add "0".data exampleShellAction,
        RunnerEv.abortEv "0".data]) "0".data = some AStatus.aborted) ∧
    (statusOf (runTrace initRState [RunnerEv.add "0".data exampleShellAction,
        RunnerEv.abortEv "0".data, RunnerEv.deliverRunning "0".data]) "0".data =
      some AStatus.running) := by
  decide

/-! ### Association-list helper lemmas -/

theorem alookup_nil {α : Type} (k : Str) : alookup ([] : List (Str × α)) k = none := rfl

theorem alookup_cons {α : Type} (p : Str × α) (l : List (Str × α)) (k : Str) :
    alookup (p :: l) k = if p.1 == k then some p.2 else alookup l k := by
  unfold alookup
  by_cases h : p.1 == k
  · rw [List.find?_cons_of_pos (p := fun q : Str × α => q.1 == k) l h, if_pos h]
    rfl
  · rw [List.find?_cons_of_neg (p := fun q : Str × α => q.1 == k) l (by simpa using h),
      if_neg h]

theorem alookup_map_update_self {α : Type} (l : List (Str × α)) (k : Str) (v : α)
    (h : ahas l k = true) :
    alookup (l.map (fun p => if p.1 == k then (p.1, v) else p)) k = some v := by
  induction l with
  | nil => simp [ahas, alookup] at h
  | cons hd tl ih =>
    simp only [List.map_cons]
    by_cases hh : hd.1 == k
    · rw [if_pos hh]
      rw [alookup_cons]
      simp [hh]
    · rw [if_neg hh, alookup_cons, if_neg hh]
      apply ih
      unfold ahas at h
      rw [alookup_cons, if_neg hh] at h
      exact h

theorem alookup_append_single_self {α : Type} (l : List (Str × α)) (k : Str) (v : α)
    (h : ahas l k = false) :
    alookup (l ++ [(k, v)]) k = some v := by
  induction l with
  | nil =>
    simp only [List.nil_append]
    rw [alookup_cons]
    simp
  | cons hd tl ih =>
    unfold ahas at h
    rw [alookup_cons] at h
    by_cases hh : hd.1 == k
    · rw [if_pos hh] at h
      simp at h
    · rw [if_neg hh] at h
      simp only [List.cons_append]
      rw [alookup_cons, if_neg hh]
      exact ih h

theorem alookup_aset_self {α : Type} (l : List (Str × α)) (k : Str) (v : α) :
    alookup (aset l k v) k = some v := by
  unfold aset
  by_cases h : ahas l k
  · rw [if_pos h]
    exact alookup_map_update_self l k v h
  · rw [if_neg h]
    exact alookup_append_single_self l k v (by simpa using h)

theorem alookup_map_update_other {α : Type} (l : List (Str × α)) (k k' : Str) (v : α)
    (hne : ¬(k' == k) = true) :
    alookup (l.map (fun p => if p.1 == k then (p.1, v) else p)) k' = alookup l k' := by
  induction l with
  | nil => rfl
  | cons hd tl ih =>
    simp only [List.map_cons]
    by_cases hh : hd.1 == k
    · rw [if_pos hh]
      rw [alookup_cons, alookup_cons]
      have hno : ¬(hd.1 == k') = true := by
        simp only [beq_iff_eq] at hh hne ⊢
        intro hc
        exact hne (by rw [← hc, hh])
      rw [if_neg hno, if_neg hno]
      exact ih
    · rw [if_neg hh, alookup_cons, alookup_cons]
      by_cases hk : hd.1 == k'
      · rw [if_pos hk, if_pos hk]
      · rw [if_neg hk, if_neg hk]
        exact ih

theorem alookup_append_single_other {α : Type} (l : List (Str × α)) (k k' : Str) (v : α)
    (hne : ¬(k' == k) = true) :
    alookup (l ++ [(k, v)]) k' = alookup l k' := by
  induction l with
  | nil =>
    simp only [List.nil_append]
    rw [alookup_cons, alookup_nil]
    have : ¬(k == k') = true := by
      simp only [beq_iff_eq] at hne ⊢
      exact fun hc => hne hc.symm
    rw [if_neg this]
  | cons hd tl ih =>
    simp only [List.cons_append]
    rw [alookup_cons, alookup_cons]
    by_cases hk : hd.1 == k'
    · rw [if_pos hk, if_pos hk]
    · rw [if_neg hk, if_neg hk]
      exact ih

theorem alookup_aset_other {α : Type} (l : List (Str × α)) (k k' : Str) (v : α)
    (hne : ¬(k' == k) = true) : alookup (aset l k v) k' = alookup l k' := by
  unfold aset
  by_cases h : ahas l k
  · rw [if_pos h]
    exact alookup_map_update_other l k k' v hne
  · rw [if_neg h]
    exact alookup_append_single_other l k k' v hne

theorem alookup_adel_self {α : Type} (l : List (Str × α)) (k : Str) :
    alookup (adel l k) k = none := by
  induction l with
  | nil => rfl
  | cons hd tl ih =>
    unfold adel
    rw [List.filter_cons]
    by_cases hh : hd.1 == k
    · have : (hd.1 != k) = false := by simp [bne, hh]
      rw [this, if_neg (by simp)]
      exact ih
    · have : (hd.1 != k) = true := by simp [bne, hh]
      rw [this, if_pos rfl, alookup_cons, if_neg hh]
      exact ih

theorem alookup_adel_other {α : Type} (l : List (Str × α)) (k k' : Str)
    (hne : ¬(k' == k) = true) : alookup (adel l k) k' = alookup l k' := by
  induction l with
  | nil => rfl
  | cons hd tl ih =>
    unfold adel
    rw [List.filter_cons]
    by_cases hh : hd.1 == k
    · have h1 : (hd.1 != k) = false := by simp [bne, hh]
      rw [h1, if_neg (by simp)]
      rw [alookup_cons]
      have hno : ¬(hd.1 == k') = true := by
        simp only [beq_iff_eq] at hh hne ⊢
        intro hc
        exact hne (by rw [← hc, hh])
      rw [if_neg hno]
      exact ih
    · have h1 : (hd.1 != k) = true := by simp [bne, hh]
      rw [h1, if_pos rfl, alookup_cons, alookup_cons]
      by_cases hk : hd.1 == k'
      · rw [if_pos hk, if_pos hk]
      · rw [if_neg hk, if_neg hk]
        exact ih

/-- C5 (amended): calling `abort()` on a `pending` action transitions
it directly to `aborted` in that single step, with no intermediate
`running` state; the claim's "never reaches running at any later
point" fails only because the `pending → running` update scheduled by
`addAction` fires unconditionally when the execution chain resolves
(see the counterexample). -/
theorem abort_pending_goes_straight_to_aborted (st : RState) (id : Str) (a : ActState)
    (hl : alookup st.actions id = some a) (hp : a.status = AStatus.pending) :
    statusOf (abortAction st id) id = some AStatus.aborted := by
  unfold abortAction
  rw [hl]
  unfold statusOf
  rw [alookup_aset_self]
  rfl

theorem abort_pending_goes_straight_to_aborted_witness :
    statusOf (abortAction (runTrace initRState [RunnerEv.add "0".data exampleShellAction])
      "0".data) "0".data = some AStatus.aborted :=
  abort_pending_goes_straight_to_aborted _ "0".data
    ⟨exampleShellAction, AStatus.pending, false, false, none⟩ (by decide) rfl

/-- C7: sanitising `npm install @lucide/react` yields
`npm install lucide-react`, and any command without an
`npm install` / `npm i` verb is returned unchanged. -/
theorem sanitize_npm_command_behavior :
    sanitizeNpmCommand "npm install @lucide/react".data = "npm install lucide-react".data ∧
    ∀ cmd : Str, npmInstallTest cmd = false → sanitizeNpmCommand cmd = cmd := by
  constructor
  · decide
  · intro cmd h
    unfold sanitizeNpmCommand
    rw [h]
    simp

theorem sanitize_npm_command_behavior_witness :
    sanitizeNpmCommand "echo hello".data = "echo hello".data :=
  sanitize_npm_command_behavior.2 "echo hello".data (by decide)

/-- C6: parsing a `pocketbase` (external-service) action tag throws
when the `operation` attribute is missing or not `collection`/`query`,
and succeeds recording the operation on the action otherwise. -/
theorem pocketbase_operation_parse_validation (input : Str) (openIdx endIdx : Nat)
    (hty : extractAttribute (sliceCh input openIdx (endIdx + 1)) typeStr =
      some pocketbaseStr) :
    (∀ op, extractAttribute (sliceCh input openIdx (endIdx + 1)) operationStr = op →
      op ≠ some collectionStr → op ≠ some queryStr →
      parseActionTag input openIdx endIdx = Except.error (pbOpErrMsg op)) ∧
    (∀ c, extractAttribute (sliceCh input openIdx (endIdx + 1)) operationStr = some c →
      (c = collectionStr ∨ c = queryStr) →
      ∃ act, parseActionTag input openIdx endIdx = Except.ok act ∧
        act.operation = some c) := by
  constructor
  · intro op hop h1 h2
    unfold parseActionTag
    simp only [hty, if_pos, hop]
    rw [if_neg]
    intro hc
    cases hc with
    | inl hc => exact h1 hc
    | inr hc => exact h2 hc
  · intro c hop hvalid
    unfold parseActionTag
    simp only [hty, if_pos, hop]
    rw [if_pos]
    · exact ⟨_, rfl, rfl⟩
    · cases hvalid with
      | inl hv => exact Or.inl (by rw [hv])
      | inr hv => exact Or.inr (by rw [hv])

theorem pocketbase_operation_parse_validation_witness :
    (∃ act, parseActionTag c6Tag 0 (c6Tag.length - 1) = Except.ok act ∧
      act.operation = some collectionStr) ∧
    parseActionTag "<boltAction type=\"pocketbase\" operation=\"update\">".data 0 49 =
      Except.error (pbOpErrMsg (some "update".data)) := by
  constructor
  · exact (pocketbase_operation_parse_validation c6Tag 0 (c6Tag.length - 1)
      (by decide)).2 collectionStr (by decide) (Or.inl rfl)
  · exact (pocketbase_operation_parse_validation _ 0 49 (by decide)).1
      (some "update".data) (by decide) (by decide) (by decide)

/-! ### Generic list/scan lemmas -/

theorem range_find?_min : ∀ (n : Nat) (p : Nat → Bool) (k : Nat),
    (List.range n).find? p = some k → p k = true ∧ ∀ j, j < k → p j = false := by
  intro n
  induction n with
  | zero =>
    intro p k h
    simp [List.range_zero] at h
  | succ m ih =>
    intro p k h
    rw [List.range_succ_eq_map] at h
    rw [List.find?] at h
    cases hp0 : p 0 with
    | true =>
      rw [hp0] at h
      simp at h
      subst h
      exact ⟨hp0, fun j hj => absurd hj (Nat.not_lt_zero j)⟩
    | false =>
      rw [hp0] at h
      simp only at h
      rw [List.find?_map] at h
      cases hf : (List.range m).find? (p ∘ Nat.succ) with
      | none => rw [hf] at h; simp at h
      | some k' =>
        rw [hf] at h
        simp at h
        obtain ⟨hp, hmin⟩ := ih (p ∘ Nat.succ) k' hf
        subst h
        refine ⟨hp, ?_⟩
        intro j hj
        cases j with
        | zero => exact hp0
        | succ j' => exact hmin j' (Nat.lt_of_succ_lt_succ hj)

theorem getLast?_cons_of_ne_nil {α : Type} (a : α) (l : List α) (h : l ≠ []) :
    (a :: l).getLast? = l.getLast? := by
  cases l with
  | nil => exact absurd rfl h
  | cons b t => rfl

theorem drop_getLast? (s : Str) (n : Nat) (h : s.drop n ≠ []) :
    (s.drop n).getLast? = s.getLast? := by
  conv_rhs => rw [← List.take_append_drop n s]
  rw [List.getLast?_append]
  cases hd : (s.drop n).getLast? with
  | none => exact absurd (List.getLast?_eq_none_iff.mp hd) h
  | some x => rfl

/-! ### Trailing-newline lemmas for the content cleaning pipeline -/

theorem trimJS_getLast_not_ws (s : Str) (c : Char) (h : (trimJS s).getLast? = some c) :
    isWsJS c = false := by
  unfold trimJS at h
  rw [List.getLast?_reverse] at h
  have := List.head?_dropWhile_not isWsJS ((s.dropWhile isWsJS).reverse)
  rw [h] at this
  exact this

theorem trimJS_getLast_not_nl (s : Str) : (trimJS s).getLast? ≠ some '\n' := by
  intro h
  have := trimJS_getLast_not_ws s '\n' h
  simp [isWsJS] at this

theorem fenceMid_take_getLast_not_nl (rest0 : Str) (k : Nat)
    (h3 : fenceMidSplit rest0 = some k) : (rest0.take k).getLast? ≠ some '\n' := by
  intro hlast
  unfold fenceMidSplit at h3
  obtain ⟨hpk, hmin⟩ := range_find?_min rest0.length _ k h3
  have hklen : k < rest0.length := by
    have := List.mem_of_find?_eq_some h3
    simpa [List.mem_range] using this
  rcases Nat.eq_zero_or_pos k with hk0 | hkpos
  · subst hk0
    simp at hlast
  · rw [List.getLast?_take] at hlast
    rw [if_neg (Nat.pos_iff_ne_zero.mp hkpos)] at hlast
    have hkm1 : k - 1 < rest0.length := by omega
    have hk1nl : rest0[k - 1]? = some '\n' := by
      cases hx : rest0[k - 1]? with
      | none =>
        rw [List.getElem?_eq_getElem hkm1] at hx
        simp at hx
      | some y =>
        rw [hx] at hlast
        simp only [Option.or_some] at hlast
        exact hlast
    simp only [Bool.and_eq_true, beq_iff_eq] at hpk
    obtain ⟨hknl, htail⟩ := hpk
    have hdropk : rest0.drop k = '\n' :: rest0.drop (k + 1) := by
      rw [List.drop_eq_getElem_cons hklen]
      congr 1
      rw [List.getElem?_eq_getElem hklen] at hknl
      exact Option.some.inj hknl
    have htailk : fenceTailMatch (rest0.drop k) = true := by
      rw [hdropk]
      unfold fenceTailMatch at htail ⊢
      rw [List.dropWhile_cons]
      have : isWsJS '\n' = true := by decide
      rw [this, if_pos rfl]
      exact htail
    have hpred : (rest0[k - 1]? == some '\n' &&
        fenceTailMatch (rest0.drop (k - 1 + 1))) = true := by
      rw [hk1nl]
      have hkeq : k - 1 + 1 = k := by omega
      rw [hkeq, htailk]
      simp
    have hcontra := hmin (k - 1) (by omega)
    rw [hcontra] at hpred
    exact absurd hpred (by simp)

theorem cleanout_getLast_not_nl (s : Str) (h : s.getLast? ≠ some '\n') :
    (cleanoutMarkdownSyntax s).getLast? ≠ some '\n' := by
  unfold cleanoutMarkdownSyntax
  dsimp only
  split
  · split
    · split
      · exact fenceMid_take_getLast_not_nl _ _ (by assumption)
      · exact h
    · exact h
  · exact h

theorem replaceAllAux_ne_nil (pat rep : Str) (hrep : rep ≠ []) (fuel : Nat) (s : Str)
    (h : replaceAllAux pat rep fuel s = []) : s = [] := by
  cases fuel with
  | zero => simpa [replaceAllAux] using h
  | succ f =>
    cases s with
    | nil => rfl
    | cons c rest =>
      rw [replaceAllAux] at h
      by_cases hm : pat ≠ [] ∧ occursAtB pat (c :: rest) 0
      · rw [if_pos hm] at h
        exact absurd (List.append_eq_nil.mp h).1 hrep
      · rw [if_neg hm] at h
        simp at h

theorem replaceAllAux_getLast (pat rep : Str) (hrep : rep ≠ [])
    (hrepl : rep.getLast? ≠ some '\n') :
    ∀ fuel s, (replaceAllAux pat rep fuel s).getLast? = some '\n' →
      s.getLast? = some '\n' := by
  intro fuel
  induction fuel with
  | zero =>
    intro s h
    simpa [replaceAllAux] using h
  | succ f ih =>
    intro s h
    cases s with
    | nil => simp [replaceAllAux] at h
    | cons c rest =>
      rw [replaceAllAux] at h
      by_cases hm : pat ≠ [] ∧ occursAtB pat (c :: rest) 0
      · rw [if_pos hm] at h
        rw [List.getLast?_append] at h
        cases hr : (replaceAllAux pat rep f ((c :: rest).drop pat.length)).getLast? with
        | none =>
          rw [hr] at h
          simp only [Option.none_or] at h
          exact absurd h hrepl
        | some x =>
          rw [hr] at h
          simp only [Option.or_some] at h
          have hx : x = '\n' := Option.some.inj h
          subst hx
          have hmem := ih _ hr
          have hdne : (c :: rest).drop pat.length ≠ [] := by
            intro he
            rw [he] at hr
            cases f <;> simp [replaceAllAux] at hr
          rw [drop_getLast? _ _ hdne] at hmem
          exact hmem
      · rw [if_neg hm] at h
        by_cases hre : replaceAllAux pat rep f rest = []
        · rw [hre] at h
          have hrnil : rest = [] := replaceAllAux_ne_nil pat rep hrep f rest hre
          subst hrnil
          exact h
        · rw [getLast?_cons_of_ne_nil _ _ hre] at h
          have := ih rest h
          have hrne : rest ≠ [] := by
            intro he
            rw [he] at hre
            cases f <;> simp [replaceAllAux] at hre
          rw [getLast?_cons_of_ne_nil _ _ hrne]
          exact this

theorem cleanEscaped_getLast (s : Str) (h : s.getLast? ≠ some '\n') :
    (cleanEscapedTags s).getLast? ≠ some '\n' := by
  unfold cleanEscapedTags replaceAllStr
  intro hc
  have h1 := replaceAllAux_getLast "&gt;".data ">".data (by decide) (by decide) _ _ hc
  have h2 := replaceAllAux_getLast "&lt;".data "<".data (by decide) (by decide) _ _ h1
  exact h h2

theorem fileCloseContent_endsOneNl (fp content0 : Str)
    (h0 : content0.getLast? ≠ some '\n') :
    endsWithOneNl (fileCloseContent fp content0) = true := by
  unfold fileCloseContent
  have hX : (if endsWithStr fp mdSuffix then content0
      else cleanEscapedTags (cleanoutMarkdownSyntax content0)).getLast? ≠ some '\n' := by
    split
    · exact h0
    · exact cleanEscaped_getLast _ (cleanout_getLast_not_nl _ h0)
  unfold endsWithOneNl
  rw [List.getLast?_concat, List.dropLast_concat]
  simp only [beq_self_eq_true, Bool.true_and]
  cases hg : (if endsWithStr fp mdSuffix then content0
      else cleanEscapedTags (cleanoutMarkdownSyntax content0)).getLast? with
  | none => decide
  | some x =>
    rw [hg] at hX
    simp only [Bool.not_eq_true', beq_eq_false_iff_ne, ne_eq, Option.some.injEq]
    intro hxx
    exact hX (by rw [hxx])

theorem step_evs_file_close (artEl input : Str) (st : MState) :
    ∀ e ∈ stepEvs (step artEl input st), evFileCloseOneNl e := by
  unfold step
  dsimp only
  repeat' split
  all_goals intro e he
  all_goals simp only [stepEvs] at he
  all_goals try exact absurd he (List.not_mem_nil e)
  all_goals rw [List.mem_singleton] at he
  all_goals subst he
  all_goals intro artId aid act hact htype
  all_goals try cases hact
  all_goals try contradiction
  all_goals
    exact fileCloseContent_endsOneNl _ _ (trimJS_getLast_not_nl _)

theorem append_one_nl_endsOneNl (X : Str) (hX : X.getLast? ≠ some '\n') :
    endsWithOneNl (X ++ ['\n']) = true := by
  unfold endsWithOneNl
  rw [List.getLast?_concat, List.dropLast_concat]
  simp only [beq_self_eq_true, Bool.true_and]
  cases hg : X.getLast? with
  | none => decide
  | some x =>
    rw [hg] at hX
    simp only [Bool.not_eq_true', beq_eq_false_iff_ne, ne_eq, Option.some.injEq]
    intro hxx
    exact hX (by rw [hxx])

theorem runLoop_evs_file_close (artEl input : Str) :
    ∀ fuel st, ∀ e ∈ (runLoop artEl input fuel st).evs, evFileCloseOneNl e := by
  intro fuel
  induction fuel with
  | zero =>
    intro st e he
    simp [runLoop] at he
  | succ f ih =>
    intro st e he
    rw [runLoop] at he
    cases hs : step artEl input st with
    | done =>
      rw [hs] at he
      simp at he
    | brk evs =>
      rw [hs] at he
      have hstep := step_evs_file_close artEl input st
      rw [hs] at hstep
      exact hstep e (by simpa [stepEvs] using he)
    | thrown st' msg =>
      rw [hs] at he
      simp at he
    | next st' out evs =>
      rw [hs] at he
      dsimp only at he
      rw [List.mem_append] at he
      cases he with
      | inl h =>
        have hstep := step_evs_file_close artEl input st
        rw [hs] at hstep
        exact hstep e (by simpa [stepEvs] using h)
      | inr h => exact ih st' e h

theorem parseCall_evs_file_close (artEl input : Str) (ms : MsgState) :
    ∀ e ∈ (parseCall artEl input ms).evs, evFileCloseOneNl e := by
  intro e he
  unfold parseCall at he
  dsimp only at he
  split at he
  · exact runLoop_evs_file_close artEl input _ _ e he
  · exact runLoop_evs_file_close artEl input _ _ e he

theorem finalizeAction_evs_file_close (st : MState) (li : Option Str) :
    ∀ e ∈ (finalizeAction st li).2, evFileCloseOneNl e := by
  unfold finalizeAction
  dsimp only
  repeat' split
  all_goals intro e he
  all_goals simp only [List.mem_singleton, List.not_mem_nil] at he
  all_goals try exact absurd he (by simp)
  all_goals subst he
  all_goals intro artId aid act hact htype
  all_goals cases hact
  all_goals try contradiction
  all_goals first
    | exact append_one_nl_endsOneNl _ (trimJS_getLast_not_nl _)
    | exact append_one_nl_endsOneNl _
        (cleanEscaped_getLast _ (cleanout_getLast_not_nl _ (trimJS_getLast_not_nl _)))

theorem finalizeArtifact_evs_file_close (st : MState) :
    ∀ e ∈ (finalizeArtifact st).2, evFileCloseOneNl e := by
  unfold finalizeArtifact
  repeat' split
  all_goals intro e he
  all_goals simp only [List.mem_singleton, List.not_mem_nil] at he
  all_goals try exact absurd he (by simp)
  all_goals subst he
  all_goals intro artId aid act hact htype
  all_goals cases hact

theorem finalize_evs_file_close (ms : MsgState) :
    ∀ e ∈ (finalizeCall ms).2, evFileCloseOneNl e := by
  intro e he
  unfold finalizeCall at he
  dsimp only at he
  rw [List.mem_append] at he
  cases he with
  | inl h => exact finalizeAction_evs_file_close _ _ e h
  | inr h => exact finalizeArtifact_evs_file_close _ e h

/-- C10: every file-action `onActionClose` event — emitted by `parse`
on a close tag or by `finalize` on stream end — carries content ending
in exactly one trailing newline (appended after trimming); `.md` paths
skip fence-stripping and entity-unescaping but still get the
newline. -/
theorem file_close_content_one_trailing_newline (artEl input : Str) (ms ms' : MsgState) :
    (∀ e ∈ (parseCall artEl input ms).evs, ∀ artId aid act,
      e = Ev.actionClose artId aid act → act.atype = some fileStr →
      endsWithOneNl act.content = true) ∧
    (∀ e ∈ (finalizeCall ms').2, ∀ artId aid act,
      e = Ev.actionClose artId aid act → act.atype = some fileStr →
      endsWithOneNl act.content = true) :=
  ⟨fun e he => parseCall_evs_file_close artEl input ms e he,
   fun e he => finalize_evs_file_close ms' e he⟩

theorem file_close_content_one_trailing_newline_witness :
    endsWithOneNl "console.log(1)\n".data = true :=
  (file_close_content_one_trailing_newline [] exampleBuffer initMsgState initMsgState).1
    (Ev.actionClose (some "a1".data) 0
      ⟨some fileStr, "console.log(1)\n".data, none, some "src/App.tsx".data⟩)
    (by decide) (some "a1".data) 0
    ⟨some fileStr, "console.log(1)\n".data, none, some "src/App.tsx".data⟩ rfl (by decide)

/-! ### `sanitizeNpmCommand` idempotence -/

theorem takeWhile_wsFree (a : Str) (h : wsFree a = true) :
    a.takeWhile (fun d => !isWsJS d) = a := by
  induction a with
  | nil => rfl
  | cons c rest ih =>
    unfold wsFree at h
    simp only [List.all_cons, Bool.and_eq_true] at h
    rw [List.takeWhile_cons, if_pos h.1]
    rw [ih h.2]

theorem takeWhile_wsFree_append (a w : Str) (h : wsFree a = true) :
    (a ++ ' ' :: w).takeWhile (fun d => !isWsJS d) = a := by
  induction a with
  | nil =>
    simp only [List.nil_append]
    rw [List.takeWhile_cons]
    norm_num [isWsJS]
  | cons c rest ih =>
    unfold wsFree at h
    simp only [List.all_cons, Bool.and_eq_true] at h
    simp only [List.cons_append]
    rw [List.takeWhile_cons, if_pos h.1]
    rw [ih h.2]

theorem dropWhile_wsFree_append (a w : Str) (h : wsFree a = true) :
    (a ++ ' ' :: w).dropWhile (fun d => !isWsJS d) = ' ' :: w := by
  induction a with
  | nil =>
    simp only [List.nil_append]
    rw [List.dropWhile_cons]
    norm_num [isWsJS]
  | cons c rest ih =>
    unfold wsFree at h
    simp only [List.all_cons, Bool.and_eq_true] at h
    simp only [List.cons_append]
    rw [List.dropWhile_cons, if_pos h.1]
    exact ih h.2

theorem dropWhile_wsFree_self (a : Str) (h : wsFree a = true) :
    a.dropWhile (fun d => !isWsJS d) = [] := by
  induction a with
  | nil => rfl
  | cons c rest ih =>
    unfold wsFree at h
    simp only [List.all_cons, Bool.and_eq_true] at h
    rw [List.dropWhile_cons, if_pos h.1]
    exact ih h.2

theorem wordsOfAux_nil (fuel : Nat) : wordsOfAux fuel [] = [] := by
  cases fuel <;> rfl

theorem wordsOfAux_single (fuel : Nat) (a : Str) (h : wsFree a = true) :
    ∀ p ∈ wordsOfAux fuel a, p = a := by
  intro p hp
  cases fuel with
  | zero => simp [wordsOfAux] at hp
  | succ f =>
    cases a with
    | nil => simp [wordsOfAux] at hp
    | cons c rest =>
      unfold wsFree at h
      simp only [List.all_cons, Bool.and_eq_true] at h
      have hcf : isWsJS c = false := by simpa using h.1
      rw [wordsOfAux] at hp
      rw [if_neg (by simp [hcf])] at hp
      rw [takeWhile_wsFree _ (by unfold wsFree; simp [h.1, h.2])] at hp
      rw [dropWhile_wsFree_self _ (by unfold wsFree; simp [h.1, h.2])] at hp
      rw [wordsOfAux_nil] at hp
      simpa using hp

theorem wordsOfAux_sep (fuel : Nat) (a w : Str) (ha : wsFree a = true) :
    ∀ p ∈ wordsOfAux fuel (a ++ ' ' :: w),
      (p = a ∧ a ≠ []) ∨ ∃ f, p ∈ wordsOfAux f w := by
  intro p hp
  cases fuel with
  | zero => simp [wordsOfAux] at hp
  | succ f =>
    cases a with
    | nil =>
      simp only [List.nil_append] at hp
      rw [wordsOfAux] at hp
      rw [if_pos (by decide)] at hp
      exact Or.inr ⟨f, hp⟩
    | cons c rest =>
      unfold wsFree at ha
      simp only [List.all_cons, Bool.and_eq_true] at ha
      have hcf : isWsJS c = false := by simpa using ha.1
      simp only [List.cons_append] at hp
      rw [wordsOfAux] at hp
      rw [if_neg (by simp [hcf])] at hp
      rw [show (c :: (rest ++ ' ' :: w)) = ((c :: rest) ++ ' ' :: w) by simp] at hp
      rw [takeWhile_wsFree_append _ _ (by unfold wsFree; simp [ha.1, ha.2])] at hp
      rw [dropWhile_wsFree_append _ _ (by unfold wsFree; simp [ha.1, ha.2])] at hp
      rcases List.mem_cons.mp hp with hpe | hpr
      · exact Or.inl ⟨hpe, by simp⟩
      · cases f with
        | zero => simp [wordsOfAux] at hpr
        | succ f' =>
          rw [wordsOfAux] at hpr
          rw [if_pos (by decide)] at hpr
          exact Or.inr ⟨f', hpr⟩

theorem wordsOf_intercalate_mem (L : List Str) (hL : ∀ q ∈ L, wsFree q = true) :
    ∀ fuel p, p ∈ wordsOfAux fuel (List.intercalate [' '] L) → p ∈ L := by
  induction L with
  | nil =>
    intro fuel p hp
    rw [show List.intercalate [' '] ([] : List Str) = [] from rfl] at hp
    rw [wordsOfAux_nil] at hp
    simp at hp
  | cons a L' ih =>
    intro fuel p hp
    cases L' with
    | nil =>
      rw [show List.intercalate [' '] [a] = a by
        simp [List.intercalate, List.intersperse]] at hp
      have := wordsOfAux_single fuel a (hL a (by simp)) p hp
      simp [this]
    | cons b L'' =>
      rw [show List.intercalate [' '] (a :: b :: L'') =
          a ++ ' ' :: List.intercalate [' '] (b :: L'') by
        simp [List.intercalate, List.intersperse]] at hp
      rcases wordsOfAux_sep fuel a _ (hL a (by simp)) p hp with ⟨hpe, _⟩ | ⟨f, hpf⟩
      · simp [hpe]
      · have : p ∈ b :: L'' := ih (fun q hq => hL q (by simp [hq])) f p hpf
        simp [this]

theorem wordsOfAux_wsFree (fuel : Nat) (s : Str) :
    ∀ p ∈ wordsOfAux fuel s, p ≠ [] ∧ wsFree p = true := by
  induction fuel generalizing s with
  | zero => intro p hp; simp [wordsOfAux] at hp
  | succ f ih =>
    intro p hp
    cases s with
    | nil => simp [wordsOfAux] at hp
    | cons c rest =>
      rw [wordsOfAux] at hp
      by_cases hc : isWsJS c
      · rw [if_pos hc] at hp
        exact ih rest p hp
      · rw [if_neg hc] at hp
        rcases List.mem_cons.mp hp with hpe | hpr
        · subst hpe
          constructor
          · rw [List.takeWhile_cons, if_pos (by simp [hc])]
            simp
          · unfold wsFree
            rw [List.all_eq_true]
            intro x hx
            simpa using List.mem_takeWhile_imp hx
        · exact ih _ p hpr

theorem splitWs_mem (s : Str) : ∀ p ∈ splitWs s, p = [] ∨ p ∈ wordsOf s := by
  intro p hp
  unfold splitWs at hp
  by_cases hs : s = []
  · rw [if_pos hs] at hp
    simp at hp
    exact Or.inl hp
  · rw [if_neg hs] at hp
    rw [List.mem_append, List.mem_append] at hp
    rcases hp with (hp | hp) | hp
    · left
      split at hp <;> simpa using hp
    · exact Or.inr hp
    · left
      split at hp <;> simpa using hp

theorem sanitizeFold_flag_clean (parts : List Str) :
    ∀ acc : List Str × Bool, (∀ p ∈ parts, cleanPartB p = true) →
      (parts.foldl sanitizeFold acc).2 = acc.2 := by
  induction parts with
  | nil => intro acc h; rfl
  | cons p rest ih =>
    intro acc h
    rw [List.foldl_cons]
    have hp := h p (by simp)
    unfold cleanPartB at hp
    simp only [Bool.and_eq_true, Bool.not_eq_true', Option.isNone_iff_eq_none] at hp
    have : sanitizeFold acc p = (acc.1 ++ [p], acc.2) := by
      unfold sanitizeFold
      dsimp only
      rw [hp.1]
      rw [if_neg (by simp)]
      rw [hp.2]
    rw [this]
    exact ih _ (fun q hq => h q (by simp [hq]))

theorem lastIdxC_none_not_mem (s : Str) (c : Char) (h : lastIdxC s c = none) :
    ∀ x ∈ s, x ≠ c := by
  induction s with
  | nil => simp
  | cons a rest ih =>
    rw [lastIdxC] at h
    cases hr : lastIdxC rest c with
    | some i => rw [hr] at h; simp at h
    | none =>
      rw [hr] at h
      simp only at h
      intro x hx
      rcases List.mem_cons.mp hx with hxa | hxr
      · subst hxa
        intro hc
        rw [if_pos hc] at h
        simp at h
      · exact ih hr x hxr

theorem lastIdxC_eq_none_of_not_mem (v : Str) (c : Char) (hv : ∀ x ∈ v, x ≠ c) :
    lastIdxC v c = none := by
  induction v with
  | nil => rfl
  | cons a rest ih =>
    rw [lastIdxC]
    rw [ih (fun x hx => hv x (by simp [hx]))]
    rw [if_neg (hv a (by simp))]

theorem lastIdxC_append_no_more (t v : Str) (c : Char) (hv : ∀ x ∈ v, x ≠ c) :
    lastIdxC (t ++ c :: v) c = some t.length := by
  induction t with
  | nil =>
    simp only [List.nil_append]
    rw [lastIdxC]
    rw [lastIdxC_eq_none_of_not_mem v c hv]
    simp
  | cons a t' ih =>
    simp only [List.cons_append]
    rw [lastIdxC, ih]
    simp

theorem bareVersion_concat (t v : Str)
    (ht : lastIdxC t '@' = none ∨ lastIdxC t '@' = some 0) (htne : t ≠ [])
    (hv : v = [] ∨ ∃ w, v = '@' :: w ∧ ∀ x ∈ w, x ≠ '@') :
    bareVersion (t ++ v) = (t, v) := by
  rcases hv with rfl | ⟨w, rfl, hw⟩
  · rw [List.append_nil]
    unfold bareVersion
    rcases ht with ht | ht
    · rw [ht]
    · rw [ht]
      simp
  · unfold bareVersion
    rw [lastIdxC_append_no_more t w '@' hw]
    dsimp only
    have htl : 0 < t.length := List.length_pos.mpr htne
    rw [if_pos htl]
    rw [List.take_left, List.drop_left]

theorem bareVersion_shape (p : Str) :
    (bareVersion p).2 = [] ∨
      ∃ w, (bareVersion p).2 = '@' :: w ∧ ∀ x ∈ w, x ≠ '@' := by
  unfold bareVersion
  cases hl : lastIdxC p '@' with
  | none => simp
  | some idx =>
    dsimp only
    by_cases hpos : 0 < idx
    · rw [if_pos hpos]
      right
      -- p[idx] = '@' and no '@' after idx
      have hspec : ∀ (s : Str) (c : Char) (i : Nat), lastIdxC s c = some i →
          i < s.length ∧ s[i]? = some c ∧ ∀ j, i < j → s[j]? ≠ some c := by
        intro s c
        induction s with
        | nil => intro i h; simp [lastIdxC] at h
        | cons a rest ih =>
          intro i h
          rw [lastIdxC] at h
          cases hr : lastIdxC rest c with
          | some k =>
            rw [hr] at h
            simp only [Option.some.injEq] at h
            subst h
            obtain ⟨h1, h2, h3⟩ := ih k hr
            refine ⟨by simpa using Nat.succ_lt_succ h1, by simpa using h2, ?_⟩
            intro j hj
            cases j with
            | zero => omega
            | succ j' =>
              simp only [List.getElem?_cons_succ]
              exact h3 j' (by omega)
          | none =>
            rw [hr] at h
            by_cases hac : a = c
            · rw [if_pos hac] at h
              simp only [Option.some.injEq] at h
              subst h
              refine ⟨by simp, by simpa using hac, ?_⟩
              intro j hj
              cases j with
              | zero => omega
              | succ j' =>
                simp only [List.getElem?_cons_succ]
                intro hc
                have hj'len : j' < rest.length := by
                  by_contra hge
                  rw [List.getElem?_eq_none (by omega)] at hc
                  exact Option.noConfusion hc
                have := lastIdxC_none_not_mem rest c hr (rest.get ⟨j', hj'len⟩)
                  (List.getElem_mem hj'len)
                rw [List.getElem?_eq_getElem hj'len] at hc
                exact this (Option.some.inj hc)
            · rw [if_neg hac] at h
              simp at h
      obtain ⟨hlen, hat, hafter⟩ := hspec p '@' idx hl
      refine ⟨p.drop (idx + 1), ?_, ?_⟩
      · have hch : p[idx] = '@' := by
          rw [List.getElem?_eq_getElem hlen] at hat
          exact Option.some.inj hat
        rw [List.drop_eq_getElem_cons hlen, hch]
      · intro x hx
        obtain ⟨j, hj, hxe⟩ := List.getElem_of_mem hx
        intro hc
        have : p[idx + 1 + j]? = some '@' := by
          have := List.getElem?_drop p (idx + 1) j
          rw [List.getElem?_eq_getElem hj] at this
          rw [hxe, hc] at this
          exact this.symm
        exact hafter (idx + 1 + j) (by omega) this
    · rw [if_neg hpos]
      simp

theorem corrections_table_facts : ∀ e ∈ packageNameCorrections,
    e.2 ≠ [] ∧ (lastIdxC e.2 '@' = none ∨ lastIdxC e.2 '@' = some 0) ∧
    lookupTable packageNameCorrections e.2 = none ∧
    (packagesToRemove.any (fun r => r == e.2)) = false ∧
    wsFree e.2 = true := by decide

theorem lookupTable_mem (t : List (Str × Str)) (k v : Str)
    (h : lookupTable t k = some v) : ∃ e ∈ t, e.1 = k ∧ e.2 = v := by
  unfold lookupTable at h
  cases hf : t.find? (fun p => p.1 == k) with
  | none => rw [hf] at h; simp at h
  | some e =>
    rw [hf] at h
    simp only [Option.map_some', Option.some.injEq] at h
    have hm := List.mem_of_find?_eq_some hf
    have hp := List.find?_some hf
    exact ⟨e, hm, by simpa using hp, h⟩

theorem bareVersion_snd_mem (p : Str) : ∀ x ∈ (bareVersion p).2, x ∈ p := by
  unfold bareVersion
  cases hl : lastIdxC p '@' with
  | none => simp
  | some idx =>
    dsimp only
    by_cases hpos : 0 < idx
    · rw [if_pos hpos]
      intro x hx
      exact List.mem_of_mem_drop hx
    · rw [if_neg hpos]
      simp

theorem sanitizeFold_out_ok (parts : List Str) :
    ∀ acc : List Str × Bool, (∀ q ∈ acc.1, wsFree q = true ∧ cleanPartB q = true) →
      (∀ p ∈ parts, wsFree p = true) →
      ∀ q ∈ (parts.foldl sanitizeFold acc).1, wsFree q = true ∧ cleanPartB q = true := by
  induction parts with
  | nil => intro acc hacc hws q hq; exact hacc q hq
  | cons p rest ih =>
    intro acc hacc hws
    rw [List.foldl_cons]
    apply ih
    · -- the new accumulator is still all-ok
      intro q hq
      unfold sanitizeFold at hq
      dsimp only at hq
      by_cases hrem : (packagesToRemove.any fun r => r == (bareVersion p).1) = true
      · rw [if_pos hrem] at hq
        exact hacc q hq
      · rw [if_neg hrem] at hq
        cases hlt : lookupTable packageNameCorrections (bareVersion p).1 with
        | some corrected =>
          rw [hlt] at hq
          dsimp only at hq
          rw [List.mem_append] at hq
          rcases hq with hq | hq
          · exact hacc q hq
          · rw [List.mem_singleton] at hq
            subst hq
            obtain ⟨e, hem, hek, hev⟩ := lookupTable_mem _ _ _ hlt
            obtain ⟨hne, hidx, hlook, hrem2, hwsf⟩ := corrections_table_facts e hem
            have hbare : bareVersion (corrected ++ (bareVersion p).2) =
                (corrected, (bareVersion p).2) := by
              apply bareVersion_concat
              · rw [← hev]; exact hidx
              · rw [← hev]; exact hne
              · rcases bareVersion_shape p with hsh | ⟨w, hsh, hw⟩
                · exact Or.inl hsh
                · exact Or.inr ⟨w, hsh, hw⟩
            constructor
            · unfold wsFree
              rw [List.all_append, Bool.and_eq_true]
              constructor
              · rw [← hev]; exact hwsf
              · rw [List.all_eq_true]
                intro x hx
                have hxp : x ∈ p := bareVersion_snd_mem p x hx
                have := hws p (by simp)
                unfold wsFree at this
                rw [List.all_eq_true] at this
                exact this x hxp
            · unfold cleanPartB
              rw [hbare]
              dsimp only
              rw [← hev]
              rw [hrem2, hlook]
              simp
        | none =>
          rw [hlt] at hq
          dsimp only at hq
          rw [List.mem_append] at hq
          rcases hq with hq | hq
          · exact hacc q hq
          · rw [List.mem_singleton] at hq
            subst hq
            refine ⟨hws q (by simp), ?_⟩
            unfold cleanPartB
            rw [hlt]
            rw [Bool.not_eq_true] at hrem
            rw [hrem]
            rfl
    · intro q hq
      exact hws q (by simp [hq])

theorem splitWs_wsFree (s : Str) : ∀ p ∈ splitWs s, wsFree p = true := by
  intro p hp
  rcases splitWs_mem s p hp with rfl | hmem
  · rfl
  · exact (wordsOfAux_wsFree s.length s p hmem).2

/-- C9 (amended, part 1): `sanitizeNpmCommand` is idempotent on every
command string. -/
theorem sanitizeNpmCommand_idem (cmd : Str) :
    sanitizeNpmCommand (sanitizeNpmCommand cmd) = sanitizeNpmCommand cmd := by
  by_cases h1 : npmInstallTest cmd = false
  · have e1 : sanitizeNpmCommand cmd = cmd := by
      unfold sanitizeNpmCommand
      rw [if_pos h1]
    rw [e1]
    exact e1
  · by_cases h2 : ((splitWs cmd).foldl sanitizeFold ([], false)).2 = false
    · have e1 : sanitizeNpmCommand cmd = cmd := by
        unfold sanitizeNpmCommand
        rw [if_neg h1, if_pos h2]
      rw [e1]
      exact e1
    · have e1 : sanitizeNpmCommand cmd =
          List.intercalate [' '] ((splitWs cmd).foldl sanitizeFold ([], false)).1 := by
        unfold sanitizeNpmCommand
        rw [if_neg h1, if_neg h2]
      rw [e1]
      have hout : ∀ q ∈ ((splitWs cmd).foldl sanitizeFold ([], false)).1,
          wsFree q = true ∧ cleanPartB q = true :=
        sanitizeFold_out_ok (splitWs cmd) ([], false) (by simp) (splitWs_wsFree cmd)
      set J := List.intercalate [' '] ((splitWs cmd).foldl sanitizeFold ([], false)).1 with hJ
      unfold sanitizeNpmCommand
      by_cases h3 : npmInstallTest J = false
      · rw [if_pos h3]
      · rw [if_neg h3]
        have hclean : ∀ p ∈ splitWs J, cleanPartB p = true := by
          intro p hp
          rcases splitWs_mem J p hp with rfl | hmem
          · decide
          · have : p ∈ ((splitWs cmd).foldl sanitizeFold ([], false)).1 := by
              apply wordsOf_intercalate_mem _ (fun q hq => (hout q hq).1) J.length p
              rw [hJ] at hmem
              exact hmem
            exact (hout p this).2
        rw [if_pos (sanitizeFold_flag_clean _ _ hclean)]

/-- C9 (counterexample): the Auto-Fixer repair rules are not all
idempotent. `fixTailwindOrPostcssConfig` wraps plugin `require(…)`
calls in a guarded IIFE whose body still contains `require(…)`, so a
second application wraps the guard again and changes the text. -/
theorem repair_rules_idempotence_counterexample :
    fixTailwindOrPostcssConfig
        (fixTailwindOrPostcssConfig twC9Input "tailwind.config.js".data)
        "tailwind.config.js".data ≠
      fixTailwindOrPostcssConfig twC9Input "tailwind.config.js".data := by
  decide

/-- C9 (amended): repairs are deterministic (pure functions), but
idempotence does not hold across the rule set: it holds for
`sanitizeNpmCommand` (universally), while
`fixSourceImports`/`fixViteConfig` can re-rewrite their own
`require → import` output on adversarial inputs and
`fixPackageJson`'s dev-script rewrite reapplies when the
`pb-setup.js && vite` pattern occurs twice
(`fixTailwindOrPostcssConfig` is covered by the counterexample). -/
theorem repair_rules_idempotence_status :
    (∀ cmd : Str, sanitizeNpmCommand (sanitizeNpmCommand cmd) = sanitizeNpmCommand cmd) ∧
    fixSourceImports (fixSourceImports srcAdvC9 "a.ts".data) "a.ts".data ≠
      fixSourceImports srcAdvC9 "a.ts".data ∧
    fixViteConfig (fixViteConfig viteAdvC9) ≠ fixViteConfig viteAdvC9 ∧
    fixPackageJsonObj (fixPackageJsonObj pkgPbC9) ≠ fixPackageJsonObj pkgPbC9 :=
  ⟨sanitizeNpmCommand_idem, by decide, by decide, by decide⟩

/-! ### Parser state invariant -/

theorem step_next_preserves_inv (artEl input : Str) (st : MState) (h : MInv st) :
    ∀ st' out evs, step artEl input st = StepRes.next st' out evs → MInv st' := by
  unfold step
  dsimp only
  repeat' split
  all_goals intro st' out evs hstep
  all_goals cases hstep
  all_goals obtain ⟨h1, h2⟩ := h
  all_goals unfold MInv
  all_goals dsimp only
  all_goals try exact ⟨h1, h2⟩
  all_goals try exact ⟨fun _ => by assumption, h2⟩
  all_goals try exact ⟨fun hc => by simp at hc, fun hc => by simp at hc⟩
  all_goals try exact ⟨fun hc => by simp at hc, fun _ => by simp⟩
  all_goals try exact ⟨fun _ => rfl, fun _ => by simp⟩
  all_goals exact ⟨fun hIA => absurd hIA (by assumption), fun hc => by simp at hc⟩

theorem step_thrown_preserves_inv (artEl input : Str) (st : MState) (h : MInv st) :
    ∀ st' m, step artEl input st = StepRes.thrown st' m → MInv st' := by
  unfold step
  dsimp only
  repeat' split
  all_goals intro st' m hstep
  all_goals cases hstep
  all_goals obtain ⟨h1, h2⟩ := h
  all_goals unfold MInv
  all_goals try dsimp only
  all_goals try exact ⟨h1, h2⟩
  all_goals exact ⟨fun _ => by assumption, h2⟩

theorem runLoop_preserves_inv (artEl input : Str) :
    ∀ fuel st, MInv st → MInv (runLoop artEl input fuel st).st := by
  intro fuel
  induction fuel with
  | zero => intro st h; exact h
  | succ f ih =>
    intro st h
    rw [runLoop]
    cases hs : step artEl input st with
    | done => exact h
    | brk evs => exact h
    | thrown st' msg => exact step_thrown_preserves_inv artEl input st h st' msg hs
    | next st' out evs =>
      dsimp only
      exact ih st' (step_next_preserves_inv artEl input st h st' out evs hs)

theorem parseCall_preserves_inv (artEl input : Str) (ms : MsgState) (h : MInv ms.core) :
    MInv (parseCall artEl input ms).state.core := by
  unfold parseCall
  dsimp only
  split
  · have := runLoop_preserves_inv artEl input (input.length + 1) ms.core h
    obtain ⟨h1, h2⟩ := this
    exact ⟨h1, h2⟩
  · exact runLoop_preserves_inv artEl input (input.length + 1) ms.core h

theorem parseCall_lastInput (artEl input : Str) (ms : MsgState) :
    (parseCall artEl input ms).state.lastInput = some input := by
  unfold parseCall
  dsimp only
  split <;> rfl

/-- C4: after a parse of buffer `s` leaves an action open, `finalize`
emits exactly one `onActionClose` (with the bytes of the last seen
buffer from the last processed position, trimmed, cleaned for
non-markdown file actions, newline-appended) followed by the forced
artifact close, and afterwards neither an action nor an artifact
remains open. -/
theorem finalize_closes_open_action (artEl s : Str) (ms : MsgState)
    (hInv : MInv ms.core)
    (hopen : (parseCall artEl s ms).state.core.insideAction = true) :
    ∃ art, (parseCall artEl s ms).state.core.currentArtifact = some art ∧
      (finalizeCall (parseCall artEl s ms).state).2 =
        [Ev.actionClose art.attrId
          (((parseCall artEl s ms).state.core.actionId : Int) - 1)
          { (parseCall artEl s ms).state.core.currentAction with
            content :=
              (let content0 :=
                trimJS (s.drop (parseCall artEl s ms).state.core.position)
               if (parseCall artEl s ms).state.core.currentAction.atype = some fileStr then
                 (if (match (parseCall artEl s ms).state.core.currentAction.filePath with
                      | some fp => endsWithStr fp mdSuffix
                      | none => false) then content0
                  else cleanEscapedTags (cleanoutMarkdownSyntax content0)) ++ ['\n']
               else content0) },
         Ev.artifactClose art] ∧
      (finalizeCall (parseCall artEl s ms).state).1.core.insideAction = false ∧
      (finalizeCall (parseCall artEl s ms).state).1.core.insideArtifact = false ∧
      (finalizeCall (parseCall artEl s ms).state).1.core.currentArtifact = none := by
  have hinv2 := parseCall_preserves_inv artEl s ms hInv
  obtain ⟨h1, h2⟩ := hinv2
  have hIA : (parseCall artEl s ms).state.core.insideArtifact = true := h1 hopen
  have hsome := h2 hIA
  cases hart : (parseCall artEl s ms).state.core.currentArtifact with
  | none => rw [hart] at hsome; simp at hsome
  | some art =>
    refine ⟨art, rfl, ?_, ?_, ?_, ?_⟩
    · unfold finalizeCall
      dsimp only
      unfold finalizeAction
      rw [if_pos hopen, hart]
      dsimp only
      rw [parseCall_lastInput]
      unfold finalizeArtifact
      dsimp only
      rw [if_pos hIA]
      rfl
    · unfold finalizeCall finalizeArtifact
      dsimp only
      unfold finalizeAction
      rw [if_pos hopen, hart]
      dsimp only
      split <;> rfl
    · unfold finalizeCall finalizeArtifact
      dsimp only
      unfold finalizeAction
      rw [if_pos hopen, hart]
      dsimp only
      rw [if_pos hIA]
    · unfold finalizeCall finalizeArtifact
      dsimp only
      unfold finalizeAction
      rw [if_pos hopen, hart]
      dsimp only
      rw [if_pos hIA]

theorem finalize_closes_open_action_witness :
    (finalizeCall (parseCall [] exampleTruncated initMsgState).state).1.core.insideAction =
        false ∧
    (finalizeCall (parseCall [] exampleTruncated initMsgState).state).1.core.insideArtifact =
        false := by
  obtain ⟨art, h1, h2, h3, h4, h5⟩ :=
    finalize_closes_open_action [] exampleTruncated initMsgState
      ⟨fun h => by simp [initMsgState, initMState] at h,
       fun h => by simp [initMsgState, initMState] at h⟩ (by decide)
  exact ⟨h3, h4⟩

/-! ## Prefix-stability toolbox for chunk-boundary invariance (C1/C2) -/

theorem pref_length {u v : Str} (hp : v.take u.length = u) : u.length ≤ v.length := by
  have h := congrArg List.length hp
  rw [List.length_take] at h
  omega

theorem pref_getElem {u v : Str} (hp : v.take u.length = u) {i : Nat}
    (hi : i < u.length) : v[i]? = u[i]? := by
  conv_rhs => rw [← hp]
  rw [List.getElem?_take, if_pos hi]

theorem pref_getD {u v : Str} (hp : v.take u.length = u) {i : Nat}
    (hi : i < u.length) : v.getD i ' ' = u.getD i ' ' := by
  rw [List.getD_eq_getElem?_getD, List.getD_eq_getElem?_getD, pref_getElem hp hi]

theorem occ_length {pat s : Str} {k : Nat} (hpat : pat ≠ [])
    (h : occursAtB pat s k = true) : k + pat.length ≤ s.length := by
  unfold occursAtB at h
  rw [beq_iff_eq] at h
  have hl := congrArg List.length h
  rw [List.length_take, List.length_drop] at hl
  have hpl : 0 < pat.length := List.length_pos.mpr hpat
  omega

theorem occ_up {u v pat : Str} {k : Nat} (hp : v.take u.length = u) (hpat : pat ≠ [])
    (h : occursAtB pat u k = true) : occursAtB pat v k = true := by
  have hlen := occ_length hpat h
  unfold occursAtB at h ⊢
  rw [beq_iff_eq] at h ⊢
  rw [← hp, List.drop_take, List.take_take, min_eq_left (by omega)] at h
  exact h

theorem occ_down {u v pat : Str} {k : Nat} (hp : v.take u.length = u)
    (h : occursAtB pat v k = true) (hlen : k + pat.length ≤ u.length) :
    occursAtB pat u k = true := by
  unfold occursAtB at h ⊢
  rw [beq_iff_eq] at h ⊢
  rw [← hp, List.drop_take, List.take_take, min_eq_left (by omega)]
  exact h

theorem occ_char {pat s : Str} {k : Nat} (h : occursAtB pat s k = true)
    {j : Nat} (hj : j < pat.length) : s[k + j]? = pat[j]? := by
  unfold occursAtB at h
  rw [beq_iff_eq] at h
  have := congrArg (fun l => l[j]?) h
  simp only [List.getElem?_take, List.getElem?_drop, if_pos hj] at this
  exact this

theorem sliceCh_stable {u v : Str} (hp : v.take u.length = u) {i j : Nat}
    (hj : j ≤ u.length) : sliceCh v i j = sliceCh u i j := by
  unfold sliceCh
  rw [← hp, List.take_take, min_eq_left hj]

theorem sIdxAux_some {s pat : Str} {fuel k m : Nat}
    (h : strIndexOfAux s pat fuel k = some m) :
    occursAtB pat s m = true ∧ k ≤ m ∧ ∀ j, k ≤ j → j < m → occursAtB pat s j = false := by
  induction fuel generalizing k with
  | zero => exact absurd h (by simp [strIndexOfAux])
  | succ fuel ih =>
    unfold strIndexOfAux at h
    by_cases hocc : occursAtB pat s k = true
    · rw [if_pos hocc] at h
      cases h
      exact ⟨hocc, le_refl _, fun j h1 h2 => absurd h1 (by omega)⟩
    · rw [if_neg hocc] at h
      obtain ⟨h1, h2, h3⟩ := ih h
      refine ⟨h1, by omega, fun j hj1 hj2 => ?_⟩
      rcases Nat.eq_or_lt_of_le hj1 with he | hl
      · rw [← he]; exact Bool.not_eq_true _ ▸ (by simpa using hocc)
      · exact h3 j hl hj2

theorem sIdxAux_none {s pat : Str} {fuel k : Nat}
    (h : strIndexOfAux s pat fuel k = none) :
    ∀ j, k ≤ j → j < k + fuel → occursAtB pat s j = false := by
  induction fuel generalizing k with
  | zero => intro j h1 h2; omega
  | succ fuel ih =>
    unfold strIndexOfAux at h
    by_cases hocc : occursAtB pat s k = true
    · rw [if_pos hocc] at h; cases h
    · rw [if_neg hocc] at h
      intro j h1 h2
      rcases Nat.eq_or_lt_of_le h1 with he | hl
      · rw [← he]; simpa using hocc
      · exact ih h j hl (by omega)

theorem sIdxAux_intro {s pat : Str} {fuel k m : Nat} (h1 : k ≤ m) (h2 : m < k + fuel)
    (hocc : occursAtB pat s m = true)
    (hmin : ∀ j, k ≤ j → j < m → occursAtB pat s j = false) :
    strIndexOfAux s pat fuel k = some m := by
  induction fuel generalizing k with
  | zero => omega
  | succ fuel ih =>
    unfold strIndexOfAux
    rcases Nat.eq_or_lt_of_le h1 with he | hl
    · rw [he, if_pos hocc]
    · rw [if_neg (by simpa using hmin k (le_refl _) hl)]
      exact ih hl (by omega) (fun j hj1 hj2 => hmin j (by omega) hj2)

theorem sIdx_some {s pat : Str} {i m : Nat} (h : strIndexOf s pat i = some m) :
    occursAtB pat s m = true ∧ i ≤ m ∧ ∀ j, i ≤ j → j < m → occursAtB pat s j = false :=
  sIdxAux_some h

theorem sIdx_none {s pat : Str} {i : Nat} (hpat : pat ≠ [])
    (h : strIndexOf s pat i = none) :
    ∀ j, i ≤ j → occursAtB pat s j = false := by
  intro j hj
  by_contra hocc
  rw [Bool.not_eq_false] at hocc
  have hb := occ_length hpat hocc
  have hpl : 0 < pat.length := List.length_pos.mpr hpat
  exact absurd hocc (by simpa using sIdxAux_none h j hj (by omega))

theorem sIdx_intro {s pat : Str} {i m : Nat} (hpat : pat ≠ []) (h1 : i ≤ m)
    (hocc : occursAtB pat s m = true)
    (hmin : ∀ j, i ≤ j → j < m → occursAtB pat s j = false) :
    strIndexOf s pat i = some m := by
  have hb := occ_length hpat hocc
  have hpl : 0 < pat.length := List.length_pos.mpr hpat
  exact sIdxAux_intro h1 (by omega) hocc hmin

theorem sIdx_up {u v pat : Str} {i m : Nat} (hp : v.take u.length = u) (hpat : pat ≠ [])
    (h : strIndexOf u pat i = some m) : strIndexOf v pat i = some m := by
  obtain ⟨hocc, h1, hmin⟩ := sIdx_some h
  refine sIdx_intro hpat h1 (occ_up hp hpat hocc) (fun j hj1 hj2 => ?_)
  by_contra hc
  rw [Bool.not_eq_false] at hc
  have hb := occ_length hpat hocc
  have hb2 : j + pat.length ≤ u.length := by omega
  exact absurd (occ_down hp hc hb2) (by simpa using hmin j hj1 hj2)

/-- If `</boltArtifact>` never occurs in the prefix `u` at or after `i`, but
`<boltAction` occurs inside `u` at `a`, then any occurrence of
`</boltArtifact>` in the extension `v` at or after `i` lies strictly
beyond `a` (the two tags cannot overlap: every character of
`</boltArtifact>` past offset 0 differs from `<` and offset 1 is `/`,
not `b`). -/
theorem close_after_open {u v : Str} {i a c : Nat} (hp : v.take u.length = u)
    (hnone : strIndexOf u artifactTagClose i = none)
    (hopen : occursAtB actionTagOpen u a = true)
    (hc : occursAtB artifactTagClose v c = true) (hci : i ≤ c) : a < c := by
  have lclose : artifactTagClose.length = 15 := by decide
  have lopen : actionTagOpen.length = 11 := by decide
  by_contra hle
  push_neg at hle
  have hou : a + actionTagOpen.length ≤ u.length := occ_length (by decide) hopen
  by_cases hwithin : c + artifactTagClose.length ≤ u.length
  · exact absurd (occ_down hp hc hwithin)
      (by simpa using sIdx_none (by decide) hnone c hci)
  · have hd : a - c < 15 := by omega
    have hveq : v[c + (a - c)]? = artifactTagClose[a - c]? := occ_char hc (by omega)
    have hvopen : occursAtB actionTagOpen v a = true := occ_up hp (by decide) hopen
    have hva : v[a + 0]? = actionTagOpen[0]? := occ_char hvopen (by omega)
    rw [show c + (a - c) = a by omega] at hveq
    rw [show a + 0 = a by omega] at hva
    have hcc : artifactTagClose[a - c]? = some '<' := by
      rw [← hveq, hva]; decide
    have honly : ∀ d, d < 15 → artifactTagClose[d]? = some '<' → d = 0 := by decide
    have hac : a = c := by
      have := honly (a - c) hd hcc
      omega
    have hv1 : v[a + 1]? = actionTagOpen[1]? := occ_char hvopen (by omega)
    have hv1c : v[c + 1]? = artifactTagClose[1]? := occ_char hc (by omega)
    rw [← hac, hv1] at hv1c
    revert hv1c
    decide

/-- If `<boltAction` never occurs in the prefix `u` at or after `i`, but
`</boltArtifact>` occurs inside `u` at `c`, then any occurrence of
`<boltAction` in the extension `v` at or after `i` lies beyond `c`
(it must stick out past `u`, hence starts after `c + 4`). -/
theorem open_after_close {u v : Str} {i a c : Nat} (hp : v.take u.length = u)
    (hnone : strIndexOf u actionTagOpen i = none)
    (hcu : occursAtB artifactTagClose u c = true)
    (ha : occursAtB actionTagOpen v a = true) (hai : i ≤ a) : ¬ a < c := by
  intro hlt
  have lclose : artifactTagClose.length = 15 := by decide
  have lopen : actionTagOpen.length = 11 := by decide
  have hcl : c + artifactTagClose.length ≤ u.length := occ_length (by decide) hcu
  have haout : ¬ a + actionTagOpen.length ≤ u.length := by
    intro hin
    exact absurd (occ_down hp ha hin)
      (by simpa using sIdx_none (by decide) hnone a hai)
  omega

theorem mc_le {s : Str} {i : Nat} {pat : Str} : matchCount s i pat ≤ pat.length := by
  induction pat generalizing i with
  | nil => simp [matchCount]
  | cons c rest ih =>
    unfold matchCount
    split
    · simpa using ih
    · simp

theorem mc_char {s : Str} {pat : Str} {i j : Nat} (hj : j < matchCount s i pat) :
    s[i + j]? = pat[j]? := by
  induction pat generalizing i j with
  | nil => simp [matchCount] at hj
  | cons c rest ih =>
    unfold matchCount at hj
    split at hj
    · cases j with
      | zero => simpa using (by assumption : s[i]? = some c)
      | succ j' =>
        have := @ih (i + 1) j' (by omega)
        rw [show i + (j' + 1) = i + 1 + j' by omega]
        simpa using this
    · omega

theorem mc_ge {s : Str} {pat : Str} {i n : Nat} (hn : n ≤ pat.length)
    (hch : ∀ j, j < n → s[i + j]? = pat[j]?) : n ≤ matchCount s i pat := by
  induction pat generalizing i n with
  | nil =>
    simp only [matchCount]
    simp at hn
    omega
  | cons c rest ih =>
    cases n with
    | zero => omega
    | succ n' =>
      have h0 : s[i]? = some c := by simpa using hch 0 (by omega)
      unfold matchCount
      rw [if_pos h0]
      have : n' ≤ matchCount s (i + 1) rest := by
        refine ih (by simpa using hn) (fun j hj => ?_)
        have := hch (j + 1) (by omega)
        rw [show i + (j + 1) = i + 1 + j by omega] at this
        simpa using this
      omega

theorem mc_stop {s : Str} {pat : Str} {i : Nat}
    (h : matchCount s i pat < pat.length) :
    s[i + matchCount s i pat]? ≠ pat[matchCount s i pat]? := by
  induction pat generalizing i with
  | nil => simp [matchCount] at h
  | cons c rest ih =>
    unfold matchCount at h ⊢
    by_cases h0 : s[i]? = some c
    · rw [if_pos h0] at h ⊢
      have hr : matchCount s (i + 1) rest < rest.length := by
        simp at h
        omega
      have := @ih (i + 1) hr
      rw [show i + (matchCount s (i + 1) rest + 1) = i + 1 + matchCount s (i + 1) rest
        by omega]
      simpa using this
    · rw [if_neg h0] at h ⊢
      simpa using h0

/-- `matchCount` is stable under buffer extension as long as the scan in the
prefix either completed the pattern or stopped strictly inside the prefix. -/
theorem mc_stable {u v : Str} {i : Nat} {pat : Str} (hp : v.take u.length = u)
    (hcase : matchCount u i pat = pat.length ∨ i + matchCount u i pat < u.length) :
    matchCount v i pat = matchCount u i pat := by
  have hchars : ∀ j, j < matchCount u i pat → v[i + j]? = pat[j]? := by
    intro j hj
    have hc := mc_char hj
    have hsome : pat[j]? ≠ none := by
      have : j < pat.length := by
        have := @mc_le u i pat
        omega
      simp [List.getElem?_eq_getElem this]
    have hlt : i + j < u.length := by
      by_contra hge
      rw [List.getElem?_eq_none_iff.mpr (by omega)] at hc
      exact hsome hc.symm
    rw [pref_getElem hp hlt]
    exact hc
  have hge : matchCount u i pat ≤ matchCount v i pat :=
    mc_ge mc_le hchars
  rcases hcase with hfull | hstop
  · have := @mc_le v i pat
    omega
  · by_contra hne
    have hlt : matchCount u i pat < matchCount v i pat := by omega
    have hvch := @mc_char v pat i (matchCount u i pat) hlt
    have hustop := @mc_stop u pat i
      (by have := @mc_le u i pat
          rcases Nat.eq_or_lt_of_le this with he | hl
          · exfalso
            have hgev := @mc_le v i pat
            omega
          · exact hl)
    rw [pref_getElem hp hstop] at hvch
    exact hustop hvch

theorem step_done_of_past (artEl input : Str) (st : MState)
    (h : input.length ≤ st.position) : step artEl input st = .done := by
  unfold step
  rw [if_neg (by omega)]

/-- A `.brk` outcome only ever carries `actionStream` events. -/
theorem step_brk_stream (artEl input : Str) (st : MState) (evs : List Ev)
    (h : step artEl input st = .brk evs) : evs.filter keepEv = [] := by
  unfold step at h
  dsimp only at h
  repeat' split at h
  all_goals cases h
  all_goals rfl

/-- Every `.next` outcome strictly advances the cursor. -/
theorem step_next_pos (artEl input : Str) (st st' : MState) (out : Str)
    (evs : List Ev) (h : step artEl input st = .next st' out evs) :
    st.position < st'.position := by
  have l1 : actionTagClose.length = 13 := by decide
  have l2 : artifactTagClose.length = 15 := by decide
  have l3 : artifactTagOpen.length = 13 := by decide
  unfold step at h
  dsimp only at h
  repeat' split at h
  all_goals cases h
  all_goals dsimp only
  all_goals
    first
      | omega
      | (rename strIndexOf _ _ _ = some _ => h2
         have hb2 := (sIdx_some h2).2.1
         revert h2
         try (rename strIndexOf _ _ _ = some _ => h1
              have hb1 := (sIdx_some h1).2.1)
         intro _
         omega)

/-- Any two sufficient fuels compute the same loop result. -/
theorem runLoop_fuel_eq (artEl input : Str) :
    ∀ f1 f2 st, input.length + 1 - st.position ≤ f1 →
      input.length + 1 - st.position ≤ f2 →
      runLoop artEl input f1 st = runLoop artEl input f2 st := by
  intro f1
  induction f1 with
  | zero =>
    intro f2 st h1 h2
    cases f2 with
    | zero => rfl
    | succ g =>
      simp only [runLoop]
      rw [step_done_of_past artEl input st (by omega)]
  | succ f ih =>
    intro f2 st h1 h2
    cases f2 with
    | zero =>
      simp only [runLoop]
      rw [step_done_of_past artEl input st (by omega)]
    | succ g =>
      simp only [runLoop]
      cases hstep : step artEl input st with
      | next st' out evs =>
        have hpos := step_next_pos artEl input st st' out evs hstep
        dsimp only
        rw [ih g st' (by omega) (by omega)]
      | brk evs => rfl
      | done => rfl
      | thrown st' m => rfl

/-- The heart of chunk-boundary invariance: a loop iteration that makes
progress (`.next`) on a buffer `u` makes exactly the same transition on
any extension `v` of `u`. -/
theorem step_next_stable {u v : Str} (artEl : Str) (st st' : MState) (out : Str)
    (evs : List Ev) (hp : v.take u.length = u)
    (h : step artEl u st = .next st' out evs) :
    step artEl v st = .next st' out evs := by
  have hul : u.length ≤ v.length := pref_length hp
  have l1 : actionTagClose.length = 13 := by decide
  have l2 : artifactTagClose.length = 15 := by decide
  have l3 : artifactTagOpen.length = 13 := by decide
  unfold step at h ⊢
  dsimp only at h ⊢
  by_cases hi : st.position < u.length
  case neg => rw [if_neg hi] at h; cases h
  rw [if_pos hi] at h
  rw [if_pos (show st.position < v.length by omega)]
  by_cases hart : st.insideArtifact = true
  case neg =>
    rw [if_neg hart] at h ⊢
    by_cases hc1 : u[st.position]? = some '<' ∧ u[st.position + 1]? ≠ some '/'
    case neg =>
      rw [if_neg hc1] at h
      have hc1v : ¬(v[st.position]? = some '<' ∧ v[st.position + 1]? ≠ some '/') := by
        intro ⟨hv1, hv2⟩
        rw [pref_getElem hp hi] at hv1
        by_cases h2 : st.position + 1 < u.length
        · rw [pref_getElem hp h2] at hv2
          exact hc1 ⟨hv1, hv2⟩
        · -- u ends right after the `<`; then u's condition holds, contradiction
          exact hc1 ⟨hv1, by
            rw [List.getElem?_eq_none_iff.mpr (by omega)]
            simp⟩
      rw [if_neg hc1v, pref_getD hp hi]
      exact h
    case pos =>
      rw [if_pos hc1] at h
      by_cases hm : matchCount u st.position artifactTagOpen = artifactTagOpen.length
      case pos =>
        rw [dif_pos hm] at h
        -- all 13 characters of the tag are inside u
        have hch : ∀ j, j < 13 → u[st.position + j]? = artifactTagOpen[j]? := by
          intro j hj
          exact mc_char (by omega)
        have h12 : u[st.position + 12]? = some 't' := by
          rw [hch 12 (by omega)]; decide
        have hin : st.position + 13 ≤ u.length := by
          by_contra hout
          rw [List.getElem?_eq_none_iff.mpr (by omega)] at h12
          cases h12
        have hc1v : v[st.position]? = some '<' ∧ v[st.position + 1]? ≠ some '/' := by
          constructor
          · rw [pref_getElem hp hi]; exact hc1.1
          · rw [pref_getElem hp (by omega)]; exact hc1.2
        have hmv : matchCount v st.position artifactTagOpen = artifactTagOpen.length := by
          rw [mc_stable hp (Or.inl hm)]; exact hm
        rw [if_pos hc1v, dif_pos hmv]
        cases hnx : u[st.position + artifactTagOpen.length - 1 + 1]? with
        | some nextChar =>
          have hnlt : st.position + artifactTagOpen.length - 1 + 1 < u.length := by
            by_contra hge
            rw [List.getElem?_eq_none_iff.mpr (by omega)] at hnx
            cases hnx
          rw [hnx] at h
          dsimp only at h
          rw [pref_getElem hp hnlt, hnx]
          dsimp only
          by_cases hbad : nextChar ≠ '>' ∧ nextChar ≠ ' '
          · rw [if_pos hbad] at h
            rw [if_pos hbad,
              sliceCh_stable hp (show st.position + artifactTagOpen.length - 1 + 1 ≤ u.length by omega)]
            exact h
          · rw [if_neg hbad] at h
            rw [if_neg hbad]
            cases hgt : strIndexOf u ['>'] (st.position + artifactTagOpen.length - 1) with
            | some e =>
              rw [hgt] at h
              dsimp only at h
              obtain ⟨hocc, hge, _⟩ := sIdx_some hgt
              have he1 : e + 1 ≤ u.length := by
                have := @occ_length ['>'] _ _ (by decide) hocc
                simpa using this
              rw [sIdx_up hp (by decide) hgt]
              dsimp only
              rw [sliceCh_stable hp he1]
              exact h
            | none => rw [hgt] at h; dsimp only at h; cases h
        | none =>
          -- the buffer ends exactly after `<boltArtifact`; the `>` search
          -- can only hit index j, which holds 't', so `u`'s step breaks
          exfalso
          rw [hnx] at h
          dsimp only at h
          have hjlen : st.position + artifactTagOpen.length - 1 + 1 = u.length := by
            have := List.getElem?_eq_none_iff.mp hnx
            omega
          cases hgt : strIndexOf u ['>'] (st.position + artifactTagOpen.length - 1) with
          | some e =>
            obtain ⟨hocc, hge, _⟩ := sIdx_some hgt
            have he1 : e + 1 ≤ u.length := by
              have := @occ_length ['>'] _ _ (by decide) hocc
              simpa using this
            have hej : e = st.position + artifactTagOpen.length - 1 := by omega
            have := @occ_char _ _ _ hocc 0 (by decide)
            rw [hej] at this
            rw [show st.position + artifactTagOpen.length - 1 + 0 =
              st.position + 12 by omega] at this
            rw [h12] at this
            simp at this
          | none => rw [hgt] at h; cases h
      case neg =>
        rw [dif_neg hm] at h
        by_cases hstop : st.position + matchCount u st.position artifactTagOpen < u.length
        case neg => rw [if_neg hstop] at h; cases h
        rw [if_pos hstop] at h
        have hm1 : 1 ≤ matchCount u st.position artifactTagOpen := by
          refine mc_ge (by simp [artifactTagOpen]) (fun j hj => ?_)
          have hj0 : j = 0 := by omega
          rw [hj0]
          rw [show st.position + 0 = st.position by omega]
          rw [hc1.1]
          decide
        have hc1v : v[st.position]? = some '<' ∧ v[st.position + 1]? ≠ some '/' := by
          constructor
          · rw [pref_getElem hp hi]; exact hc1.1
          · rw [pref_getElem hp (by omega)]; exact hc1.2
        have hmv : matchCount v st.position artifactTagOpen =
            matchCount u st.position artifactTagOpen := mc_stable hp (Or.inr hstop)
        rw [if_pos hc1v, dif_neg (by rw [hmv]; exact hm), hmv,
          if_pos (show st.position + matchCount u st.position artifactTagOpen < v.length
            by omega),
          sliceCh_stable hp
            (show st.position + matchCount u st.position artifactTagOpen + 1 ≤ u.length
              by omega)]
        exact h
  case pos =>
    rw [if_pos hart] at h ⊢
    cases hca : st.currentArtifact with
    | none => rw [hca] at h; cases h
    | some currentArtifact =>
      rw [hca] at h
      dsimp only at h ⊢
      by_cases hact : st.insideAction = true
      case pos =>
        rw [if_pos hact] at h ⊢
        cases hclose : strIndexOf u actionTagClose st.position with
        | some closeIndex =>
          rw [hclose] at h
          dsimp only at h
          obtain ⟨hocc, hge, _⟩ := sIdx_some hclose
          have hcl : closeIndex ≤ u.length := by
            have := @occ_length actionTagClose _ _ (by decide) hocc
            omega
          rw [sIdx_up hp (by decide) hclose]
          dsimp only
          rw [sliceCh_stable hp hcl]
          exact h
        | none =>
          rw [hclose] at h
          dsimp only at h
          repeat' split at h
          all_goals cases h
      case neg =>
        rw [if_neg hact] at h ⊢
        cases hopen : strIndexOf u actionTagOpen st.position with
        | some aIdx =>
          rw [hopen] at h
          dsimp only at h
          have hopen_v : strIndexOf v actionTagOpen st.position = some aIdx :=
            sIdx_up hp (by decide) hopen
          rw [hopen_v]
          dsimp only
          by_cases hcond : strIndexOf u artifactTagClose st.position = none ∨
              ∃ c, strIndexOf u artifactTagClose st.position = some c ∧ aIdx < c
          case pos =>
            rw [if_pos hcond] at h
            have hcond_v : strIndexOf v artifactTagClose st.position = none ∨
                ∃ c, strIndexOf v artifactTagClose st.position = some c ∧ aIdx < c := by
              rcases hcond with hnone | ⟨c, hc, hlt⟩
              · cases hclv : strIndexOf v artifactTagClose st.position with
                | none => exact Or.inl rfl
                | some c2 =>
                  refine Or.inr ⟨c2, rfl, ?_⟩
                  obtain ⟨hoccv, hgev, _⟩ := sIdx_some hclv
                  exact close_after_open hp hnone (sIdx_some hopen).1 hoccv hgev
              · exact Or.inr ⟨c, sIdx_up hp (by decide) hc, hlt⟩
            rw [if_pos hcond_v]
            cases hgt : strIndexOf u ['>'] aIdx with
            | some e =>
              rw [hgt] at h
              dsimp only at h
              obtain ⟨hocce, hgee, _⟩ := sIdx_some hgt
              have he1 : e + 1 ≤ u.length := by
                have := @occ_length ['>'] _ _ (by decide) hocce
                simpa using this
              rw [sIdx_up hp (by decide) hgt]
              dsimp only
              have hpt : parseActionTag v aIdx e = parseActionTag u aIdx e := by
                unfold parseActionTag
                rw [sliceCh_stable hp he1]
              rw [hpt]
              exact h
            | none => rw [hgt] at h; dsimp only at h; cases h
          case neg =>
            rw [if_neg hcond] at h
            push_neg at hcond
            obtain ⟨hne, hforall⟩ := hcond
            cases hcu : strIndexOf u artifactTagClose st.position with
            | none => exact absurd hcu hne
            | some c =>
              rw [hcu] at h
              dsimp only at h
              have hnlt : ¬ aIdx < c := by
                have := hforall c hcu
                omega
              have hclv : strIndexOf v artifactTagClose st.position = some c :=
                sIdx_up hp (by decide) hcu
              rw [if_neg (by
                rintro (hnv | ⟨c2, hc2, hlt2⟩)
                · rw [hclv] at hnv; cases hnv
                · rw [hclv] at hc2
                  cases hc2
                  exact hnlt hlt2), hclv]
              dsimp only
              exact h
        | none =>
          rw [hopen] at h
          dsimp only at h
          cases hcu : strIndexOf u artifactTagClose st.position with
          | none => rw [hcu] at h; dsimp only at h; cases h
          | some c =>
            rw [hcu] at h
            dsimp only at h
            have hclv : strIndexOf v artifactTagClose st.position = some c :=
              sIdx_up hp (by decide) hcu
            cases hov : strIndexOf v actionTagOpen st.position with
            | none =>
              dsimp only
              rw [hclv]
              dsimp only
              exact h
            | some a2 =>
              dsimp only
              obtain ⟨hocca, hgea, _⟩ := sIdx_some hov
              have hnlt : ¬ a2 < c :=
                open_after_close hp hopen (sIdx_some hcu).1 hocca hgea
              rw [if_neg (by
                rintro (hnv | ⟨c2, hc2, hlt2⟩)
                · rw [hclv] at hnv; cases hnv
                · rw [hclv] at hc2
                  cases hc2
                  exact hnlt hlt2), hclv]
              dsimp only
              exact h

/-- A loop iteration that throws on a buffer `u` also throws on any
extension `v` of `u` (possibly with a different mutated state when the
close tag only appears in the extension). -/
theorem step_thrown_stable {u v : Str} (artEl : Str) (st stE : MState) (m : Str)
    (hp : v.take u.length = u)
    (h : step artEl u st = .thrown stE m) :
    ∃ stE2 m2, step artEl v st = .thrown stE2 m2 := by
  have hul : u.length ≤ v.length := pref_length hp
  unfold step at h ⊢
  dsimp only at h ⊢
  by_cases hi : st.position < u.length
  case neg => rw [if_neg hi] at h; cases h
  rw [if_pos hi] at h
  rw [if_pos (show st.position < v.length by omega)]
  by_cases hart : st.insideArtifact = true
  case neg =>
    exfalso
    rw [if_neg hart] at h
    repeat' split at h
    all_goals cases h
  case pos =>
    rw [if_pos hart] at h ⊢
    cases hca : st.currentArtifact with
    | none =>
      rw [hca] at h
      dsimp only
      exact ⟨_, _, rfl⟩
    | some currentArtifact =>
      rw [hca] at h
      dsimp only at h ⊢
      by_cases hact : st.insideAction = true
      case pos =>
        rw [if_pos hact] at h ⊢
        cases hclose : strIndexOf u actionTagClose st.position with
        | some closeIndex =>
          rw [hclose] at h
          dsimp only at h
          rw [sIdx_up hp (by decide) hclose]
          dsimp only
          by_cases hty : st.currentAction.atype = some fileStr
          case neg => rw [if_neg hty] at h; try dsimp only at h
                      cases h
          rw [if_pos hty] at h ⊢
          cases hfp : st.currentAction.filePath with
          | some fp =>
            rw [hfp] at h
            try dsimp only at h
            cases h
          | none =>
            rw [hfp] at h
            try dsimp only at h
            try dsimp only
            exact ⟨_, _, rfl⟩
        | none =>
          rw [hclose] at h
          dsimp only at h
          by_cases hty : st.currentAction.atype = some fileStr
          case neg => rw [if_neg hty] at h; try dsimp only at h
                      cases h
          rw [if_pos hty] at h
          cases hfp : st.currentAction.filePath with
          | some fp =>
            rw [hfp] at h
            try dsimp only at h
            cases h
          | none =>
            cases hclv : strIndexOf v actionTagClose st.position with
            | some c2 =>
              try dsimp only
              rw [if_pos hty]
              try dsimp only
              exact ⟨_, _, rfl⟩
            | none =>
              try dsimp only
              rw [if_pos hty]
              try dsimp only
              exact ⟨_, _, rfl⟩
      case neg =>
        rw [if_neg hact] at h ⊢
        cases hopen : strIndexOf u actionTagOpen st.position with
        | none =>
          exfalso
          rw [hopen] at h
          dsimp only at h
          repeat' split at h
          all_goals cases h
        | some aIdx =>
          rw [hopen] at h
          dsimp only at h
          have hopen_v : strIndexOf v actionTagOpen st.position = some aIdx :=
            sIdx_up hp (by decide) hopen
          rw [hopen_v]
          dsimp only
          by_cases hcond : strIndexOf u artifactTagClose st.position = none ∨
              ∃ c, strIndexOf u artifactTagClose st.position = some c ∧ aIdx < c
          case neg =>
            exfalso
            rw [if_neg hcond] at h
            repeat' split at h
            all_goals cases h
          rw [if_pos hcond] at h
          have hcond_v : strIndexOf v artifactTagClose st.position = none ∨
              ∃ c, strIndexOf v artifactTagClose st.position = some c ∧ aIdx < c := by
            rcases hcond with hnone | ⟨c, hc, hlt⟩
            · cases hclv : strIndexOf v artifactTagClose st.position with
              | none => exact Or.inl rfl
              | some c2 =>
                refine Or.inr ⟨c2, rfl, ?_⟩
                obtain ⟨hoccv, hgev, _⟩ := sIdx_some hclv
                exact close_after_open hp hnone (sIdx_some hopen).1 hoccv hgev
            · exact Or.inr ⟨c, sIdx_up hp (by decide) hc, hlt⟩
          rw [if_pos hcond_v]
          cases hgt : strIndexOf u ['>'] aIdx with
          | none => rw [hgt] at h; dsimp only at h; cases h
          | some e =>
            rw [hgt] at h
            dsimp only at h
            obtain ⟨hocce, hgee, _⟩ := sIdx_some hgt
            have he1 : e + 1 ≤ u.length := by
              have := @occ_length ['>'] _ _ (by decide) hocce
              simpa using this
            rw [sIdx_up hp (by decide) hgt]
            dsimp only
            have hpt : parseActionTag v aIdx e = parseActionTag u aIdx e := by
              unfold parseActionTag
              rw [sliceCh_stable hp he1]
            rw [hpt]
            cases hpe : parseActionTag u aIdx e with
            | ok act => rw [hpe] at h; dsimp only at h; cases h
            | error msg =>
              rw [hpe] at h
              dsimp only at h ⊢
              exact ⟨_, _, rfl⟩

/-- If the loop on the prefix `u` throws, the loop on any extension `v`
also throws (the mirrored iterations reach the same throwing state). -/
theorem runLoop_err_propagates {u v : Str} (artEl : Str) (hp : v.take u.length = u) :
    ∀ fuel g st, fuel ≤ g → (runLoop artEl u fuel st).err.isSome →
      (runLoop artEl v g st).err.isSome := by
  intro fuel
  induction fuel with
  | zero =>
    intro g st _ habs
    simp [runLoop] at habs
  | succ fuel ih =>
    intro g st hg herr
    cases g with
    | zero => omega
    | succ g' =>
      simp only [runLoop] at herr ⊢
      cases hstep : step artEl u st with
      | done => rw [hstep] at herr; simp at herr
      | brk evs => rw [hstep] at herr; simp at herr
      | thrown st2 m =>
        obtain ⟨stE2, m2, hv⟩ := step_thrown_stable artEl st st2 m hp hstep
        rw [hv]
        simp
      | next st' out evs =>
        rw [hstep] at herr
        dsimp only at herr
        rw [step_next_stable artEl st st' out evs hp hstep]
        dsimp only
        exact ih g' st' (by omega) herr

/-- Resume property: running the loop on an extension `v` from a state is
the same as first running it on the prefix `u` (when that run does not
throw) and then running on `v` from the reached state — same final state,
concatenated outputs, and concatenated non-stream event lists. -/
theorem runLoop_resume {u v : Str} (artEl : Str) (hp : v.take u.length = u) :
    ∀ fuel st, u.length + 1 - st.position ≤ fuel →
      (runLoop artEl u fuel st).err = none →
      (runLoop artEl v (v.length + 1) st).st =
          (runLoop artEl v (v.length + 1) (runLoop artEl u fuel st).st).st ∧
        (runLoop artEl v (v.length + 1) st).out =
          (runLoop artEl u fuel st).out ++
            (runLoop artEl v (v.length + 1) (runLoop artEl u fuel st).st).out ∧
        (runLoop artEl v (v.length + 1) st).evs.filter keepEv =
          (runLoop artEl u fuel st).evs.filter keepEv ++
            (runLoop artEl v (v.length + 1)
              (runLoop artEl u fuel st).st).evs.filter keepEv ∧
        (runLoop artEl v (v.length + 1) st).err =
          (runLoop artEl v (v.length + 1) (runLoop artEl u fuel st).st).err := by
  intro fuel
  induction fuel with
  | zero =>
    intro st hb herr
    have hu : runLoop artEl u 0 st = ⟨st, [], [], none⟩ := by simp only [runLoop]
    rw [hu]
    dsimp only
    exact ⟨rfl, by simp, by simp, rfl⟩
  | succ fuel ih =>
    intro st hb herr
    cases hstep : step artEl u st with
    | done =>
      have hu : runLoop artEl u (fuel + 1) st = ⟨st, [], [], none⟩ := by
        simp only [runLoop, hstep]
      rw [hu]
      dsimp only
      exact ⟨rfl, by simp, by simp, rfl⟩
    | brk evs2 =>
      have hu : runLoop artEl u (fuel + 1) st = ⟨st, [], evs2, none⟩ := by
        simp only [runLoop, hstep]
      have hf := step_brk_stream artEl u st evs2 hstep
      rw [hu]
      dsimp only
      exact ⟨rfl, by simp, by rw [hf]; simp, rfl⟩
    | thrown st2 m =>
      have hu : runLoop artEl u (fuel + 1) st = ⟨st2, [], [], some m⟩ := by
        simp only [runLoop, hstep]
      rw [hu] at herr
      simp at herr
    | next st' out2 evs2 =>
      have hpos := step_next_pos artEl u st st' out2 evs2 hstep
      have hu : runLoop artEl u (fuel + 1) st =
          ⟨(runLoop artEl u fuel st').st, out2 ++ (runLoop artEl u fuel st').out,
           evs2 ++ (runLoop artEl u fuel st').evs, (runLoop artEl u fuel st').err⟩ := by
        simp only [runLoop, hstep]
      have hstepv := step_next_stable artEl st st' out2 evs2 hp hstep
      have hv : runLoop artEl v (v.length + 1) st =
          ⟨(runLoop artEl v v.length st').st, out2 ++ (runLoop artEl v v.length st').out,
           evs2 ++ (runLoop artEl v v.length st').evs,
           (runLoop artEl v v.length st').err⟩ := by
        simp only [runLoop, hstepv]
      have hfi : runLoop artEl v v.length st' = runLoop artEl v (v.length + 1) st' :=
        runLoop_fuel_eq artEl v v.length (v.length + 1) st' (by omega) (by omega)
      rw [hu] at herr ⊢
      dsimp only at herr
      rw [hv, hfi]
      dsimp only
      obtain ⟨ih1, ih2, ih3, ih4⟩ := ih st' (by omega) herr
      refine ⟨ih1, ?_, ?_, ih4⟩
      · rw [ih2, List.append_assoc]
      · simp only [List.filter_append, ih3, List.append_assoc]

theorem parseCall_err_eq (artEl w : Str) (ms : MsgState) :
    (parseCall artEl w ms).err = (runLoop artEl w (w.length + 1) ms.core).err := by
  simp only [parseCall]
  split <;> simp_all

/-- A parse that does not throw on an extension did not throw on the
prefix either. -/
theorem parseCall_err_up {u v : Str} (artEl : Str) (hp : v.take u.length = u)
    (ms : MsgState) (herrv : (parseCall artEl v ms).err = none) :
    (parseCall artEl u ms).err = none := by
  rw [parseCall_err_eq] at herrv ⊢
  by_contra hne
  have hsome : (runLoop artEl u (u.length + 1) ms.core).err.isSome := by
    cases hc : (runLoop artEl u (u.length + 1) ms.core).err with
    | none => exact absurd hc hne
    | some m => simp
  have hul : u.length ≤ v.length := pref_length hp
  have := runLoop_err_propagates artEl hp (u.length + 1) (v.length + 1) ms.core
    (by omega) hsome
  rw [herrv] at this
  simp at this

/-- `parse` resume at the committed cursor: parsing an extension `v` from
scratch equals parsing the prefix `u` first and then `v` from the saved
state — same final state, concatenated outputs and non-stream events. -/
theorem parseCall_resume {u v : Str} (artEl : Str) (hp : v.take u.length = u)
    (ms : MsgState) (herru : (parseCall artEl u ms).err = none)
    (herrv : (parseCall artEl v ms).err = none) :
    (parseCall artEl v ms).state =
        (parseCall artEl v (parseCall artEl u ms).state).state ∧
      (parseCall artEl v ms).out =
        (parseCall artEl u ms).out ++
          (parseCall artEl v (parseCall artEl u ms).state).out ∧
      (parseCall artEl v ms).evs.filter keepEv =
        (parseCall artEl u ms).evs.filter keepEv ++
          (parseCall artEl v (parseCall artEl u ms).state).evs.filter keepEv ∧
      (parseCall artEl v (parseCall artEl u ms).state).err = none := by
  have hru : (runLoop artEl u (u.length + 1) ms.core).err = none := by
    rw [parseCall_err_eq] at herru
    exact herru
  have hrv : (runLoop artEl v (v.length + 1) ms.core).err = none := by
    rw [parseCall_err_eq] at herrv
    exact herrv
  obtain ⟨r1, r2, r3, r4⟩ :=
    runLoop_resume artEl hp (u.length + 1) ms.core (by omega) hru
  have hrv2 : (runLoop artEl v (v.length + 1)
      (runLoop artEl u (u.length + 1) ms.core).st).err = none := by
    rw [← r4]
    exact hrv
  have hpu : parseCall artEl u ms =
      ⟨⟨(runLoop artEl u (u.length + 1) ms.core).st, some u⟩,
       (runLoop artEl u (u.length + 1) ms.core).out,
       (runLoop artEl u (u.length + 1) ms.core).evs, none⟩ := by
    simp only [parseCall, hru]
  have hpv : parseCall artEl v ms =
      ⟨⟨(runLoop artEl v (v.length + 1) ms.core).st, some v⟩,
       (runLoop artEl v (v.length + 1) ms.core).out,
       (runLoop artEl v (v.length + 1) ms.core).evs, none⟩ := by
    simp only [parseCall, hrv]
  have hpv2 : parseCall artEl v (parseCall artEl u ms).state =
      ⟨⟨(runLoop artEl v (v.length + 1)
          (runLoop artEl u (u.length + 1) ms.core).st).st, some v⟩,
       (runLoop artEl v (v.length + 1)
          (runLoop artEl u (u.length + 1) ms.core).st).out,
       (runLoop artEl v (v.length + 1)
          (runLoop artEl u (u.length + 1) ms.core).st).evs, none⟩ := by
    rw [hpu]
    simp only [parseCall, hrv2]
  rw [hpv2, hpu, hpv]
  dsimp only
  exact ⟨by rw [r1], r2, r3, rfl⟩

theorem take_is_pref (s : Str) (k : Nat) : s.take (s.take k).length = s.take k := by
  rw [List.length_take]
  rcases le_or_lt k s.length with h | h
  · rw [min_eq_left h]
  · rw [min_eq_right (by omega), List.take_length, List.take_of_length_le (by omega)]

/-- Chunked cumulative parsing agrees with one-shot parsing from any
starting state, when the one-shot parse does not throw. -/
theorem parseChunks_eq (artEl s : Str) :
    ∀ cuts ms, (parseCall artEl s ms).err = none →
      (parseChunks artEl s cuts ms).state = (parseCall artEl s ms).state ∧
      (parseChunks artEl s cuts ms).out = (parseCall artEl s ms).out ∧
      (parseChunks artEl s cuts ms).evs.filter keepEv =
        (parseCall artEl s ms).evs.filter keepEv ∧
      (parseChunks artEl s cuts ms).err = none := by
  intro cuts
  induction cuts with
  | nil =>
    intro ms herr
    exact ⟨rfl, rfl, rfl, herr⟩
  | cons k rest ih =>
    intro ms herr
    have hp : s.take (s.take k).length = s.take k := take_is_pref s k
    have herru : (parseCall artEl (s.take k) ms).err = none :=
      parseCall_err_up artEl hp ms herr
    obtain ⟨q1, q2, q3, q4⟩ := parseCall_resume artEl hp ms herru herr
    obtain ⟨i1, i2, i3, i4⟩ := ih (parseCall artEl (s.take k) ms).state q4
    simp only [parseChunks, herru]
    try dsimp only
    refine ⟨?_, ?_, ?_, i4⟩
    · rw [i1, ← q1]
    · rw [i2, ← q2]
    · rw [List.filter_append, i3, ← q3]

/-- C1: for every message and every buffer on which the one-shot parse
does not throw (valid tag sequence), feeding the buffer as any chain of
cumulative-prefix `parse` calls yields the same final parser state, the
same concatenated passthrough output, and the same sequence of
artifact-open/action-open/action-close/artifact-close events (the
`keepEv` filter drops only the transient `onActionStream` previews) as
parsing the full buffer in a single call — including cut points that
fall in the middle of a tag or attribute. -/
theorem parse_chunk_boundary_invariance (artEl s : Str) (cuts : List Nat)
    (h : (parseCall artEl s initMsgState).err = none) :
    (parseChunks artEl s cuts initMsgState).state =
        (parseCall artEl s initMsgState).state ∧
      (parseChunks artEl s cuts initMsgState).out =
        (parseCall artEl s initMsgState).out ∧
      (parseChunks artEl s cuts initMsgState).evs.filter keepEv =
        (parseCall artEl s initMsgState).evs.filter keepEv ∧
      (parseChunks artEl s cuts initMsgState).err = none :=
  parseChunks_eq artEl s cuts initMsgState h

theorem parse_chunk_boundary_invariance_witness :
    (parseCall [] exampleBuffer initMsgState).err = none ∧
    (parseChunks [] exampleBuffer [30, 60, 95] initMsgState).evs.filter keepEv =
      (parseCall [] exampleBuffer initMsgState).evs.filter keepEv ∧
    (parseChunks [] exampleBuffer [30, 60, 95] initMsgState).out =
      (parseCall [] exampleBuffer initMsgState).out :=
  ⟨by decide,
   (parse_chunk_boundary_invariance [] exampleBuffer [30, 60, 95] (by decide)).2.2.1,
   (parse_chunk_boundary_invariance [] exampleBuffer [30, 60, 95] (by decide)).2.1⟩

/-- After a non-throwing full-fuel run, the loop is blocked: the next
iteration from the reached state either finishes (`done`) or waits for
more input (`brk`). -/
theorem runLoop_halts (artEl input : Str) :
    ∀ fuel st, input.length + 1 - st.position ≤ fuel →
      (runLoop artEl input fuel st).err = none →
      step artEl input (runLoop artEl input fuel st).st = .done ∨
        ∃ evs, step artEl input (runLoop artEl input fuel st).st = .brk evs := by
  intro fuel
  induction fuel with
  | zero =>
    intro st hb herr
    have hu : runLoop artEl input 0 st = ⟨st, [], [], none⟩ := rfl
    rw [hu]
    exact Or.inl (step_done_of_past artEl input st (by omega))
  | succ fuel ih =>
    intro st hb herr
    cases hstep : step artEl input st with
    | done =>
      have hu : runLoop artEl input (fuel + 1) st = ⟨st, [], [], none⟩ := by
        simp only [runLoop, hstep]
      rw [hu]
      exact Or.inl hstep
    | brk evs =>
      have hu : runLoop artEl input (fuel + 1) st = ⟨st, [], evs, none⟩ := by
        simp only [runLoop, hstep]
      rw [hu]
      exact Or.inr ⟨evs, hstep⟩
    | thrown st2 m =>
      have hu : runLoop artEl input (fuel + 1) st = ⟨st2, [], [], some m⟩ := by
        simp only [runLoop, hstep]
      rw [hu] at herr
      simp at herr
    | next st' o e =>
      have hpos := step_next_pos artEl input st st' o e hstep
      have hu : runLoop artEl input (fuel + 1) st =
          ⟨(runLoop artEl input fuel st').st, o ++ (runLoop artEl input fuel st').out,
           e ++ (runLoop artEl input fuel st').evs,
           (runLoop artEl input fuel st').err⟩ := by
        simp only [runLoop, hstep]
      rw [hu] at herr ⊢
      dsimp only at herr ⊢
      exact ih st' (by omega) herr

/-- C2 counterexample to the frozen claim: re-parsing an identical buffer
that ends inside an unclosed file action re-fires the `onActionStream`
preview callback, so the second call is not callback-free. -/
theorem parse_identical_call_counterexample :
    (parseCall [] exampleOpenAction
        (parseCall [] exampleOpenAction initMsgState).state).evs ≠ [] := by
  decide

/-- C2 (amended): once a `parse` call on a buffer has not thrown, calling
`parse` again with the identical buffer leaves the per-message state
(including the cursor) unchanged, returns an empty output fragment, and
fires no artifact/action open or close callbacks — only the transient
`onActionStream` preview may re-fire while inside an unclosed file
action; and a call with a strictly extended buffer resumes exactly at
the previous cursor: it produces the previous output followed by the
continuation's output, and the continuation's open/close events. -/
theorem parse_identical_call_noop (artEl s v : Str) (ms : MsgState)
    (herr : (parseCall artEl s ms).err = none) :
    ((parseCall artEl s (parseCall artEl s ms).state).state =
        (parseCall artEl s ms).state ∧
      (parseCall artEl s (parseCall artEl s ms).state).out = [] ∧
      (parseCall artEl s (parseCall artEl s ms).state).evs.filter keepEv = [] ∧
      (parseCall artEl s (parseCall artEl s ms).state).err = none) ∧
    (v.take s.length = s → (parseCall artEl v ms).err = none →
      (parseCall artEl v ms).state =
          (parseCall artEl v (parseCall artEl s ms).state).state ∧
        (parseCall artEl v ms).out =
          (parseCall artEl s ms).out ++
            (parseCall artEl v (parseCall artEl s ms).state).out ∧
        (parseCall artEl v ms).evs.filter keepEv =
          (parseCall artEl s ms).evs.filter keepEv ++
            (parseCall artEl v (parseCall artEl s ms).state).evs.filter keepEv) := by
  constructor
  · have hr : (runLoop artEl s (s.length + 1) ms.core).err = none := by
      rw [parseCall_err_eq] at herr
      exact herr
    have hpu : parseCall artEl s ms =
        ⟨⟨(runLoop artEl s (s.length + 1) ms.core).st, some s⟩,
         (runLoop artEl s (s.length + 1) ms.core).out,
         (runLoop artEl s (s.length + 1) ms.core).evs, none⟩ := by
      simp only [parseCall, hr]
    have hgen : ∀ st0 : MState, step artEl s st0 = .done →
        runLoop artEl s (s.length + 1) st0 = ⟨st0, [], [], none⟩ := by
      intro st0 hd
      simp only [runLoop, hd]
    have hgenb : ∀ (st0 : MState) evs0, step artEl s st0 = .brk evs0 →
        runLoop artEl s (s.length + 1) st0 = ⟨st0, [], evs0, none⟩ := by
      intro st0 evs0 hd
      simp only [runLoop, hd]
    rcases runLoop_halts artEl s (s.length + 1) ms.core (by omega) hr with hdone | ⟨evs, hbrk⟩
    · have h2 := hgen _ hdone
      rw [hpu]
      dsimp only
      have hp2 : parseCall artEl s
          (⟨(runLoop artEl s (s.length + 1) ms.core).st, some s⟩ : MsgState) =
          ⟨⟨(runLoop artEl s (s.length + 1) ms.core).st, some s⟩, [], [], none⟩ := by
        simp only [parseCall, h2]
      rw [hp2]
      exact ⟨rfl, rfl, rfl, rfl⟩
    · have h2 := hgenb _ _ hbrk
      rw [hpu]
      dsimp only
      have hp2 : parseCall artEl s
          (⟨(runLoop artEl s (s.length + 1) ms.core).st, some s⟩ : MsgState) =
          ⟨⟨(runLoop artEl s (s.length + 1) ms.core).st, some s⟩, [], evs, none⟩ := by
        simp only [parseCall, h2]
      rw [hp2]
      exact ⟨rfl, rfl, step_brk_stream artEl s _ evs hbrk, rfl⟩
  · intro hp herrv
    obtain ⟨q1, q2, q3, _⟩ := parseCall_resume artEl hp ms herr herrv
    exact ⟨q1, q2, q3⟩

theorem parse_identical_call_noop_witness :
    (parseCall [] (exampleBuffer.take 60) initMsgState).err = none ∧
    (parseCall [] (exampleBuffer.take 60)
        (parseCall [] (exampleBuffer.take 60) initMsgState).state).state =
      (parseCall [] (exampleBuffer.take 60) initMsgState).state ∧
    (parseCall [] (exampleBuffer.take 60)
        (parseCall [] (exampleBuffer.take 60) initMsgState).state).out = [] ∧
    (parseCall [] exampleBuffer initMsgState).out =
      (parseCall [] (exampleBuffer.take 60) initMsgState).out ++
        (parseCall [] exampleBuffer
          (parseCall [] (exampleBuffer.take 60) initMsgState).state).out := by
  obtain ⟨⟨a1, a2, _, _⟩, hres⟩ :=
    parse_identical_call_noop [] (exampleBuffer.take 60) exampleBuffer initMsgState
      (by decide)
  obtain ⟨_, b2, _⟩ := hres (by decide) (by decide)
  exact ⟨by decide, a1, a2, b2⟩

/-! ## Helper lemmas for the `fixPackageJson` object pipeline (C8) -/

theorem alookup_applyCorrectionEntry_other (d : Deps) (e : Str × Str) (k : Str)
    (h1 : ¬(k == e.1) = true) (h2 : ¬(k == e.2) = true) :
    alookup (applyCorrectionEntry d e) k = alookup d k := by
  unfold applyCorrectionEntry
  by_cases hh : ahas d e.1
  · rw [if_pos hh]
    dsimp only
    by_cases hh2 : ahas (adel d e.1) e.2
    · rw [if_pos hh2, alookup_adel_other d e.1 k h1]
    · rw [if_neg hh2, alookup_aset_other _ _ _ _ h2, alookup_adel_other d e.1 k h1]
  · rw [if_neg hh]

theorem alookup_corrections_fold (entries : List (Str × Str)) (d : Deps) (k : Str)
    (h : ∀ e ∈ entries, ¬(k == e.1) = true ∧ ¬(k == e.2) = true) :
    alookup (entries.foldl applyCorrectionEntry d) k = alookup d k := by
  induction entries generalizing d with
  | nil => rfl
  | cons e rest ih =>
    rw [List.foldl_cons, ih _ (fun e2 he2 => h e2 (by simp [he2]))]
    exact alookup_applyCorrectionEntry_other d e k (h e (by simp)).1 (h e (by simp)).2

theorem alookup_removals_fold (rem : List Str) (d : Deps) (k : Str)
    (h : ∀ r ∈ rem, ¬(k == r) = true) :
    alookup (rem.foldl (fun d k2 => if ahas d k2 then adel d k2 else d) d) k =
      alookup d k := by
  induction rem generalizing d with
  | nil => rfl
  | cons r rest ih =>
    rw [List.foldl_cons, ih _ (fun r2 hr2 => h r2 (by simp [hr2]))]
    by_cases hh : ahas d r
    · rw [if_pos hh]
      exact alookup_adel_other d r k (h r (by simp))
    · rw [if_neg hh]

theorem alookup_fixDepsSection_other (d : Deps) (k : Str)
    (hc : ∀ e ∈ packageNameCorrections, ¬(k == e.1) = true ∧ ¬(k == e.2) = true)
    (hr : ∀ r ∈ packagesToRemove, ¬(k == r) = true) :
    alookup (fixDepsSection d) k = alookup d k := by
  unfold fixDepsSection applyRemovals applyCorrections
  rw [alookup_removals_fold _ _ _ hr, alookup_corrections_fold _ _ _ hc]

theorem getDep_mapSections_dep (f : Deps → Deps) (p : Pkg) :
    (mapSections f p).dependencies = p.dependencies.map f := rfl

theorem getDep_map_other (o : Option Deps) (f : Deps → Deps) (k : Str)
    (h : ∀ d, alookup (f d) k = alookup d k) :
    getDep (o.map f) k = getDep o k := by
  cases o with
  | none => rfl
  | some d => exact h d

theorem getDep_upgradeViteSection_other (o : Option Deps) (k : Str)
    (h1 : ¬(k == viteStr) = true) (h2 : ¬(k == pluginReactPkg) = true) :
    getDep (upgradeViteSection o) k = getDep o k := by
  cases o with
  | none => rfl
  | some d =>
    unfold upgradeViteSection
    dsimp only
    split_ifs
    all_goals
      first
        | (rw [show getDep (some (aset (aset d viteStr "^5.4.0".data) pluginReactPkg
              "^4.3.0".data)) k = alookup (aset (aset d viteStr "^5.4.0".data)
              pluginReactPkg "^4.3.0".data) k from rfl,
            alookup_aset_other _ _ _ _ h2, alookup_aset_other _ _ _ _ h1]
           rfl)
        | (rw [show getDep (some (aset d viteStr "^5.4.0".data)) k =
              alookup (aset d viteStr "^5.4.0".data) k from rfl,
            alookup_aset_other _ _ _ _ h1]
           rfl)
        | (rw [show getDep (some (aset d pluginReactPkg "^4.3.0".data)) k =
              alookup (aset d pluginReactPkg "^4.3.0".data) k from rfl,
            alookup_aset_other _ _ _ _ h2]
           rfl)
        | rfl

theorem alookup_adel_none (d : Deps) (n k : Str) (h : alookup d k = none) :
    alookup (adel d n) k = none := by
  by_cases he : (k == n) = true
  · have hkn : k = n := by simpa using he
    rw [hkn, alookup_adel_self]
  · rw [alookup_adel_other _ _ _ he]
    exact h

theorem alookup_foldl_adel_none (names : List Str) (d : Deps) (k : Str)
    (h : alookup d k = none) :
    alookup (names.foldl (fun d n => adel d n) d) k = none := by
  induction names generalizing d with
  | nil => exact h
  | cons n rest ih =>
    rw [List.foldl_cons]
    exact ih _ (alookup_adel_none _ _ _ h)

theorem alookup_foldl_adel_mem (names : List Str) (d : Deps) (k : Str) (h : k ∈ names) :
    alookup (names.foldl (fun d n => adel d n) d) k = none := by
  induction names generalizing d with
  | nil => cases h
  | cons n rest ih =>
    rw [List.foldl_cons]
    rcases List.mem_cons.mp h with he | hm
    · exact alookup_foldl_adel_none rest _ k (he ▸ alookup_adel_self d n)
    · exact ih _ hm

theorem getDep_map_foldl_adel_none (o : Option Deps) (names : List Str) (k : Str)
    (h : getDep o k = none) :
    getDep (o.map (fun d => names.foldl (fun d n => adel d n) d)) k = none := by
  cases o with
  | none => rfl
  | some d => exact alookup_foldl_adel_none names d k h

theorem getDep_map_foldl_adel_mem (o : Option Deps) (names : List Str) (k : Str)
    (h : k ∈ names) :
    getDep (o.map (fun d => names.foldl (fun d n => adel d n) d)) k = none := by
  cases o with
  | none => rfl
  | some d => exact alookup_foldl_adel_mem names d k h

/-- The banned-framework fold keeps an already-raised flag raised. -/
theorem bannedFold_flag (fws : List (Str × List Str)) (acc : Pkg × Bool)
    (h : acc.2 = true) :
    (fws.foldl
      (fun (acc : Pkg × Bool) fw =>
        if fw.2.any (fun pk => pkgSectionHasTruthy acc.1 pk) then
          (deleteFromAllSections acc.1 fw.2, true)
        else acc) acc).2 = true := by
  induction fws generalizing acc with
  | nil => exact h
  | cons fw rest ih =>
    rw [List.foldl_cons]
    by_cases hc : fw.2.any (fun pk => pkgSectionHasTruthy acc.1 pk) = true
    · rw [if_pos hc]
      exact ih _ rfl
    · rw [if_neg hc]
      exact ih _ h

/-- The banned-framework fold only deletes: a key absent from every
section stays absent. -/
theorem bannedFold_absent (fws : List (Str × List Str)) (acc : Pkg × Bool) (k : Str)
    (h1 : getDep acc.1.dependencies k = none)
    (h2 : getDep acc.1.devDependencies k = none)
    (h3 : getDep acc.1.peerDependencies k = none) :
    getDep (fws.foldl
        (fun (acc : Pkg × Bool) fw =>
          if fw.2.any (fun pk => pkgSectionHasTruthy acc.1 pk) then
            (deleteFromAllSections acc.1 fw.2, true)
          else acc) acc).1.dependencies k = none ∧
      getDep (fws.foldl
        (fun (acc : Pkg × Bool) fw =>
          if fw.2.any (fun pk => pkgSectionHasTruthy acc.1 pk) then
            (deleteFromAllSections acc.1 fw.2, true)
          else acc) acc).1.devDependencies k = none ∧
      getDep (fws.foldl
        (fun (acc : Pkg × Bool) fw =>
          if fw.2.any (fun pk => pkgSectionHasTruthy acc.1 pk) then
            (deleteFromAllSections acc.1 fw.2, true)
          else acc) acc).1.peerDependencies k = none := by
  induction fws generalizing acc with
  | nil => exact ⟨h1, h2, h3⟩
  | cons fw rest ih =>
    rw [List.foldl_cons]
    by_cases hc : fw.2.any (fun pk => pkgSectionHasTruthy acc.1 pk) = true
    · rw [if_pos hc]
      exact ih _ (getDep_map_foldl_adel_none _ _ _ h1)
        (getDep_map_foldl_adel_none _ _ _ h2) (getDep_map_foldl_adel_none _ _ _ h3)
    · rw [if_neg hc]
      exact ih _ h1 h2 h3

theorem alookup_getD_none (o : Option Deps) (k : Str) (h : getDep o k = none) :
    alookup (o.getD []) k = none := by
  cases o with
  | none => rfl
  | some d => exact h

theorem alookup_ensure_other (d : Deps) (k k2 v : Str) (hne : ¬(k2 == k) = true) :
    alookup (if !truthyS (alookup d k) then aset d k v else d) k2 = alookup d k2 := by
  split
  · exact alookup_aset_other d k k2 v hne
  · rfl

theorem truthyS_ensure_self (d : Deps) (k v : Str) (hv : ¬v.isEmpty = true) :
    truthyS (alookup (if !truthyS (alookup d k) then aset d k v else d) k) = true := by
  split
  · rw [alookup_aset_self]
    simpa [truthyS] using hv
  · rename_i h
    simpa using h

theorem alookup_foldl_adel_other (names : List Str) (d : Deps) (k : Str)
    (h : ∀ n ∈ names, ¬(k == n) = true) :
    alookup (names.foldl (fun d n => adel d n) d) k = alookup d k := by
  induction names generalizing d with
  | nil => rfl
  | cons n rest ih =>
    rw [List.foldl_cons, ih _ (fun n2 hn2 => h n2 (by simp [hn2]))]
    exact alookup_adel_other d n k (h n (by simp))

theorem pkgSectionHasTruthy_delete_other (p : Pkg) (names : List Str) (k : Str)
    (h : ∀ n ∈ names, ¬(k == n) = true) :
    pkgSectionHasTruthy (deleteFromAllSections p names) k = pkgSectionHasTruthy p k := by
  unfold pkgSectionHasTruthy deleteFromAllSections mapSections
  dsimp only
  rw [getDep_map_other _ _ _ (fun d => alookup_foldl_adel_other names d k h),
    getDep_map_other _ _ _ (fun d => alookup_foldl_adel_other names d k h),
    getDep_map_other _ _ _ (fun d => alookup_foldl_adel_other names d k h)]

/-- If `k` is truthy in some section and appears in one of the framework
lists, the banned-framework fold raises the flag and removes `k` from
every dependency section. -/
theorem bannedFold_removes (fws : List (Str × List Str)) (acc : Pkg × Bool) (k : Str)
    (htruthy : pkgSectionHasTruthy acc.1 k = true)
    (hmem : ∃ fw ∈ fws, k ∈ fw.2) :
    (fws.foldl
        (fun (acc : Pkg × Bool) fw =>
          if fw.2.any (fun pk => pkgSectionHasTruthy acc.1 pk) then
            (deleteFromAllSections acc.1 fw.2, true)
          else acc) acc).2 = true ∧
      getDep (fws.foldl
        (fun (acc : Pkg × Bool) fw =>
          if fw.2.any (fun pk => pkgSectionHasTruthy acc.1 pk) then
            (deleteFromAllSections acc.1 fw.2, true)
          else acc) acc).1.dependencies k = none ∧
      getDep (fws.foldl
        (fun (acc : Pkg × Bool) fw =>
          if fw.2.any (fun pk => pkgSectionHasTruthy acc.1 pk) then
            (deleteFromAllSections acc.1 fw.2, true)
          else acc) acc).1.devDependencies k = none ∧
      getDep (fws.foldl
        (fun (acc : Pkg × Bool) fw =>
          if fw.2.any (fun pk => pkgSectionHasTruthy acc.1 pk) then
            (deleteFromAllSections acc.1 fw.2, true)
          else acc) acc).1.peerDependencies k = none := by
  induction fws generalizing acc with
  | nil =>
    obtain ⟨fw, hfw, _⟩ := hmem
    cases hfw
  | cons fw rest ih =>
    rw [List.foldl_cons]
    by_cases hk : k ∈ fw.2
    · have hc : fw.2.any (fun pk => pkgSectionHasTruthy acc.1 pk) = true :=
        List.any_eq_true.mpr ⟨k, hk, htruthy⟩
      rw [if_pos hc]
      have habs1 : getDep (deleteFromAllSections acc.1 fw.2).dependencies k = none :=
        getDep_map_foldl_adel_mem _ _ _ hk
      have habs2 : getDep (deleteFromAllSections acc.1 fw.2).devDependencies k = none :=
        getDep_map_foldl_adel_mem _ _ _ hk
      have habs3 : getDep (deleteFromAllSections acc.1 fw.2).peerDependencies k = none :=
        getDep_map_foldl_adel_mem _ _ _ hk
      obtain ⟨a1, a2, a3⟩ :=
        bannedFold_absent rest (deleteFromAllSections acc.1 fw.2, true) k habs1 habs2 habs3
      exact ⟨bannedFold_flag rest _ rfl, a1, a2, a3⟩
    · have hknot : ∀ n ∈ fw.2, ¬(k == n) = true := by
        intro n hn
        intro hbeq
        have hkn : k = n := by simpa using hbeq
        cases hkn
        exact hk hn
      by_cases hc : fw.2.any (fun pk => pkgSectionHasTruthy acc.1 pk) = true
      · rw [if_pos hc]
        refine ih (deleteFromAllSections acc.1 fw.2, true) ?_ ?_
        · rw [show ((deleteFromAllSections acc.1 fw.2, true) : Pkg × Bool).1 =
            deleteFromAllSections acc.1 fw.2 from rfl,
            pkgSectionHasTruthy_delete_other _ _ _ hknot]
          exact htruthy
        · obtain ⟨fw2, hfw2, hkfw2⟩ := hmem
          rcases List.mem_cons.mp hfw2 with he | hm
          · exact absurd (he ▸ hkfw2) hk
          · exact ⟨fw2, hm, hkfw2⟩
      · rw [if_neg hc]
        refine ih acc htruthy ?_
        obtain ⟨fw2, hfw2, hkfw2⟩ := hmem
        rcases List.mem_cons.mp hfw2 with he | hm
        · exact absurd (he ▸ hkfw2) hk
        · exact ⟨fw2, hm, hkfw2⟩

/-- C8: a manifest with `"next": "^14.0.0"` in `dependencies` together
with `react` is repaired to a manifest where `next` is gone from all
three dependency sections, `react` and `react-dom` are present in
`dependencies`, `vite` and `@vitejs/plugin-react` are present in
`devDependencies`, and the `dev`/`build`/`start` scripts are the Vite
toolchain commands. -/
theorem fix_package_json_next_removal (p0 : Pkg)
    (hnext : getDep p0.dependencies "next".data = some "^14.0.0".data)
    (hreact : truthyS (getDep p0.dependencies "react".data) = true) :
    getDep (fixPackageJsonObj p0).dependencies "next".data = none ∧
      getDep (fixPackageJsonObj p0).devDependencies "next".data = none ∧
      getDep (fixPackageJsonObj p0).peerDependencies "next".data = none ∧
      truthyS (getDep (fixPackageJsonObj p0).dependencies "react".data) = true ∧
      truthyS (getDep (fixPackageJsonObj p0).dependencies "react-dom".data) = true ∧
      truthyS (getDep (fixPackageJsonObj p0).devDependencies "vite".data) = true ∧
      truthyS (getDep (fixPackageJsonObj p0).devDependencies
        "@vitejs/plugin-react".data) = true ∧
      getDep (fixPackageJsonObj p0).scripts "dev".data = some "vite".data ∧
      getDep (fixPackageJsonObj p0).scripts "build".data = some "vite build".data ∧
      getDep (fixPackageJsonObj p0).scripts "start".data = some "vite preview".data := by
  have hcN : ∀ e ∈ packageNameCorrections,
      ¬("next".data == e.1) = true ∧ ¬("next".data == e.2) = true := by decide
  have hrN : ∀ r ∈ packagesToRemove, ¬("next".data == r) = true := by decide
  have hstruct : ∃ p6 : Pkg,
      fixPackageJsonObj p0 =
        (if (removeBannedFrameworks p6).2 then
          let q0 := (removeBannedFrameworks p6).1
          let dep0 := q0.dependencies.getD []
          let dep1 := if !truthyS (alookup dep0 reactStr) then
              aset dep0 reactStr "^18.3.0".data else dep0
          let dep2 := if !truthyS (alookup dep1 "react-dom".data) then
              aset dep1 "react-dom".data "^18.3.0".data else dep1
          let dv0 := q0.devDependencies.getD []
          let dv1 := if !truthyS (alookup dv0 viteStr) then
              aset dv0 viteStr "^5.4.0".data else dv0
          let dv2 := if !truthyS (alookup dv1 pluginReactPkg) then
              aset dv1 pluginReactPkg "^4.3.0".data else dv1
          let sc0 := q0.scripts.getD []
          let sc1 := aset sc0 devStr viteStr
          let sc2 := aset sc1 "build".data "vite build".data
          let sc3 := aset sc2 "start".data "vite preview".data
          { dependencies := some dep2, devDependencies := some dv2,
            peerDependencies := q0.peerDependencies, scripts := some sc3,
            ptype := if !truthyS q0.ptype then some "module".data else q0.ptype }
        else p6) ∧
      getDep p6.dependencies "next".data = getDep p0.dependencies "next".data := by
    refine ⟨_, rfl, ?_⟩
    dsimp only
    rw [getDep_upgradeViteSection_other _ _ (by decide) (by decide)]
    split <;> (try dsimp only) <;> split <;> (try dsimp only) <;>
      exact getDep_map_other _ _ _ (fun d => alookup_fixDepsSection_other d _ hcN hrN)
  obtain ⟨p6, hq, hpres⟩ := hstruct
  have hn6 : getDep p6.dependencies "next".data = some "^14.0.0".data := by
    rw [hpres, hnext]
  have hts6 : pkgSectionHasTruthy p6 "next".data = true := by
    unfold pkgSectionHasTruthy
    rw [hn6]
    rw [show truthyS (some "^14.0.0".data) = true from by decide]
    simp
  have hrm := bannedFold_removes bannedFrameworks (p6, false) "next".data hts6 (by decide)
  have hflag : (removeBannedFrameworks p6).2 = true := hrm.1
  have habs1 : getDep (removeBannedFrameworks p6).1.dependencies "next".data = none :=
    hrm.2.1
  have habs2 : getDep (removeBannedFrameworks p6).1.devDependencies "next".data = none :=
    hrm.2.2.1
  have habs3 : getDep (removeBannedFrameworks p6).1.peerDependencies "next".data = none :=
    hrm.2.2.2
  rw [if_pos hflag] at hq
  rw [hq]
  dsimp only [getDep]
  simp only [reactStr, viteStr, pluginReactPkg, devStr]
  refine ⟨?_, ?_, ?_, ?_, ?_, ?_, ?_, ?_, ?_, ?_⟩
  · rw [alookup_ensure_other _ _ _ _ (by decide), alookup_ensure_other _ _ _ _ (by decide)]
    exact alookup_getD_none _ _ habs1
  · rw [alookup_ensure_other _ _ _ _ (by decide), alookup_ensure_other _ _ _ _ (by decide)]
    exact alookup_getD_none _ _ habs2
  · exact habs3
  · rw [alookup_ensure_other _ _ _ _ (by decide)]
    exact truthyS_ensure_self _ _ _ (by decide)
  · exact truthyS_ensure_self _ _ _ (by decide)
  · rw [alookup_ensure_other _ _ _ _ (by decide)]
    exact truthyS_ensure_self _ _ _ (by decide)
  · exact truthyS_ensure_self _ _ _ (by decide)
  · rw [alookup_aset_other _ _ _ _ (by decide), alookup_aset_other _ _ _ _ (by decide),
      alookup_aset_self]
  · rw [alookup_aset_other _ _ _ _ (by decide), alookup_aset_self]
  · rw [alookup_aset_self]

theorem fix_package_json_next_removal_witness :
    getDep (fixPackageJsonObj ⟨some [("next".data, "^14.0.0".data),
        ("react".data, "^18.2.0".data)], none, none, none, none⟩).dependencies
      "next".data = none ∧
    truthyS (getDep (fixPackageJsonObj ⟨some [("next".data, "^14.0.0".data),
        ("react".data, "^18.2.0".data)], none, none, none, none⟩).devDependencies
      "vite".data) = true ∧
    getDep (fixPackageJsonObj ⟨some [("next".data, "^14.0.0".data),
        ("react".data, "^18.2.0".data)], none, none, none, none⟩).scripts
      "dev".data = some "vite".data := by
  obtain ⟨a1, _, _, _, _, a6, _, a8, _, _⟩ :=
    fix_package_json_next_removal ⟨some [("next".data, "^14.0.0".data),
      ("react".data, "^18.2.0".data)], none, none, none, none⟩ (by decide) (by decide)
  exact ⟨a1, a6, a8⟩
